import Mathlib

/-!
Verification of the Elements-style confidential transaction codec and
signature-hash engine (`ts_src/transaction.ts`).

Bytes are modelled as `List Nat`; all multi-byte integers are little-endian.
The byte cursor and confidential field codec live in `bufferutils.ts`, which
is not part of the sources; those primitives are modelled from the
specification (sections 4.1 and 4.2) and each such definition is marked
`Modelled from the spec:` in its doc comment.  External hash functions
(`sha256`, `hash256`, `tagged_hash`) are consumed interfaces: every theorem
quantifies over an arbitrary `sha : List Nat → List Nat`.
-/

/-- Modelled from the spec: little-endian 16-bit write of `bufferutils`. -/
def u16LE (n : Nat) : List Nat := [n % 256, n / 256 % 256]

/-- Modelled from the spec: little-endian 32-bit write of `bufferutils`. -/
def u32LE (n : Nat) : List Nat :=
  [n % 256, n / 256 % 256, n / 65536 % 256, n / 16777216 % 256]

/-- Modelled from the spec: little-endian 64-bit write of `bufferutils`. -/
def u64LE (n : Nat) : List Nat := u32LE (n % 4294967296) ++ u32LE (n / 4294967296)

/-- Modelled from the spec: one-byte write (`write_uint8`). -/
def writeUInt8 (n : Nat) : List Nat := [n % 256]

/-- Modelled from the spec: signed 32-bit little-endian write; the bit
pattern is the two's complement of `v` (identical to the unsigned pattern
of `v mod 2^32`). -/
def writeInt32 (v : Int) : List Nat := u32LE (v % 4294967296).toNat

/-- Modelled from the spec: `read_uint8` (fails with `Truncated` = `none`). -/
def readUInt8 : List Nat → Option (Nat × List Nat)
  | [] => none
  | b :: r => some (b, r)

/-- Modelled from the spec: `read_slice(n)` returns the next `n` bytes. -/
def readSlice (n : Nat) (l : List Nat) : Option (List Nat × List Nat) :=
  if n ≤ l.length then some (l.take n, l.drop n) else none

/-- Modelled from the spec: `read_uint16_le`. -/
def readUInt16 : List Nat → Option (Nat × List Nat)
  | b0 :: b1 :: r => some (b0 + 256 * b1, r)
  | _ => none

/-- Modelled from the spec: `read_uint32_le`. -/
def readUInt32 : List Nat → Option (Nat × List Nat)
  | b0 :: b1 :: b2 :: b3 :: r =>
      some (b0 + 256 * b1 + 65536 * b2 + 16777216 * b3, r)
  | _ => none

/-- Modelled from the spec: `read_uint64_le`. -/
def readUInt64 : List Nat → Option (Nat × List Nat)
  | b0 :: b1 :: b2 :: b3 :: b4 :: b5 :: b6 :: b7 :: r =>
      some (b0 + 256 * b1 + 65536 * b2 + 16777216 * b3 + 4294967296 * b4 +
        1099511627776 * b5 + 281474976710656 * b6 + 72057594037927936 * b7, r)
  | _ => none

/-- Modelled from the spec: `read_int32_le` (signed decode of the 32-bit
little-endian pattern). -/
def readInt32 (l : List Nat) : Option (Int × List Nat) :=
  (readUInt32 l).map fun p =>
    (if p.1 < 2147483648 then (p.1 : Int) else (p.1 : Int) - 4294967296, p.2)

/-- Modelled from the spec: Bitcoin compact-size `read_varint`; the first
byte selects the width (b < 0xFD direct, 0xFD u16, 0xFE u32, 0xFF u64). -/
def readVarInt : List Nat → Option (Nat × List Nat)
  | [] => none
  | b :: r =>
      if b < 253 then some (b, r)
      else if b = 253 then readUInt16 r
      else if b = 254 then readUInt32 r
      else readUInt64 r

/-- Modelled from the spec: minimal compact-size write. -/
def writeVarInt (n : Nat) : List Nat :=
  if n < 253 then [n]
  else if n < 65536 then 253 :: u16LE n
  else if n < 4294967296 then 254 :: u32LE n
  else 255 :: u64LE n

/-- Modelled from the spec: `varuint.encodingLength` (1, 3, 5 or 9). -/
def encodingLength (n : Nat) : Nat :=
  if n < 253 then 1 else if n < 65536 then 3 else if n < 4294967296 then 5 else 9

/-- Modelled from the spec: `write_varslice` (varint length then bytes). -/
def writeVarSlice (s : List Nat) : List Nat := writeVarInt s.length ++ s

/-- `varSliceSize` from `bufferutils`: length of the varslice encoding. -/
def varSliceSize (s : List Nat) : Nat := encodingLength s.length + s.length

/-- Modelled from the spec: `read_varslice`. -/
def readVarSlice (l : List Nat) : Option (List Nat × List Nat) := do
  let (n, r) ← readVarInt l
  readSlice n r

/-- Modelled from the spec: a confidential asset is 33 bytes (prefix plus
32 bytes) for every prefix value; the read returns the entire field. -/
def readConfidentialAsset (l : List Nat) : Option (List Nat × List Nat) :=
  readSlice 33 l

/-- Modelled from the spec: width of a confidential value from its first
byte (0x00 absent = 1 byte, 0x01 explicit = 9 bytes, else commitment = 33). -/
def confValueLength (b : Nat) : Nat := if b = 0 then 1 else if b = 1 then 9 else 33

/-- Modelled from the spec: `read_confidential_value` returns the entire
field including its prefix byte. -/
def readConfidentialValue (l : List Nat) : Option (List Nat × List Nat) :=
  match l with
  | [] => none
  | b :: _ => readSlice (confValueLength b) l

/-- Modelled from the spec: width of a confidential nonce from its first
byte (0x00 absent = 1 byte, else = 33 bytes). -/
def confNonceLength (b : Nat) : Nat := if b = 0 then 1 else 33

/-- Modelled from the spec: `read_confidential_nonce`. -/
def readConfidentialNonce (l : List Nat) : Option (List Nat × List Nat) :=
  match l with
  | [] => none
  | b :: _ => readSlice (confNonceLength b) l

/-- Per-input issuance record (`issuance.ts` interface). -/
structure Issuance where
  assetBlindingNonce : List Nat
  assetEntropy : List Nat
  assetAmount : List Nat
  tokenAmount : List Nat
deriving DecidableEq

/-- Modelled from the spec: issuance wire form is the four fields
back-to-back (32-byte nonce, 32-byte entropy, two confidential values). -/
def writeIssuance (iss : Issuance) : List Nat :=
  iss.assetBlindingNonce ++ iss.assetEntropy ++ iss.assetAmount ++ iss.tokenAmount

/-- Modelled from the spec: `read_issuance`. -/
def readIssuance (l : List Nat) : Option (Issuance × List Nat) := do
  let (n, r1) ← readSlice 32 l
  let (e, r2) ← readSlice 32 r1
  let (a, r3) ← readConfidentialValue r2
  let (t, r4) ← readConfidentialValue r3
  some ({ assetBlindingNonce := n, assetEntropy := e, assetAmount := a,
          tokenAmount := t }, r4)

/-- Read `n` consecutive items with the reader `read`. -/
def readList (read : List Nat → Option (α × List Nat)) :
    Nat → List Nat → Option (List α × List Nat)
  | 0, l => some ([], l)
  | n + 1, l => do
      let (x, r1) ← read l
      let (xs, r2) ← readList read n r1
      some (x :: xs, r2)

/-- Modelled from the spec: a witness stack = varint count then that many
varslices. -/
def readSliceVec (l : List Nat) : Option (List (List Nat) × List Nat) := do
  let (n, r) ← readVarInt l
  readList readVarSlice n r

/-- Modelled from the spec: write of a witness stack. -/
def writeSliceVec (ws : List (List Nat)) : List Nat :=
  writeVarInt ws.length ++ (ws.map writeVarSlice).flatten

/-- The four per-input confidential witness fields. -/
structure InFields where
  irp : List Nat
  infp : List Nat
  wit : List (List Nat)
  pwit : List (List Nat)
deriving DecidableEq

/-- Modelled from the spec: `read_confidential_in_fields` =
issuance range proof, inflation range proof, witness stack, pegin
witness stack. -/
def readConfidentialInFields (l : List Nat) : Option (InFields × List Nat) := do
  let (a, r1) ← readVarSlice l
  let (b, r2) ← readVarSlice r1
  let (w, r3) ← readSliceVec r2
  let (pw, r4) ← readSliceVec r3
  some ({ irp := a, infp := b, wit := w, pwit := pw }, r4)

/-- The two per-output confidential witness fields. -/
structure OutFields where
  sp : List Nat
  rp : List Nat
deriving DecidableEq

/-- Modelled from the spec: `read_confidential_out_fields` =
surjection proof then range proof. -/
def readConfidentialOutFields (l : List Nat) : Option (OutFields × List Nat) := do
  let (s, r1) ← readVarSlice l
  let (r, r2) ← readVarSlice r1
  some ({ sp := s, rp := r }, r2)

/-- Transaction input (`Input` interface in `transaction.ts`); the optional
fields that `fromBuffer`/`addInput` always populate are modelled as plain
fields with their populated defaults. -/
structure Input where
  hash : List Nat
  index : Nat
  script : List Nat
  sequence : Nat
  witness : List (List Nat)
  isPegin : Bool
  issuance : Option Issuance
  peginWitness : List (List Nat)
  issuanceRangeProof : List Nat
  inflationRangeProof : List Nat
deriving DecidableEq

/-- Transaction output (`Output` interface in `transaction.ts`). -/
structure Output where
  script : List Nat
  value : List Nat
  asset : List Nat
  nonce : List Nat
  rangeProof : List Nat
  surjectionProof : List Nat
deriving DecidableEq

/-- The transaction model of `transaction.ts`. -/
structure Transaction where
  version : Int
  locktime : Nat
  flag : Nat
  ins : List Input
  outs : List Output
deriving DecidableEq

def OUTPOINT_ISSUANCE_FLAG : Nat := 2147483648

def OUTPOINT_PEGIN_FLAG : Nat := 1073741824

def OUTPOINT_INDEX_MASK : Nat := 1073741823

def MINUS_1 : Nat := 4294967295

def DEFAULT_SEQUENCE : Nat := 4294967295

/-- The 32-byte constant `ONE` (31 zero bytes then 0x01). -/
def ONE32 : List Nat := List.replicate 31 0 ++ [1]

/-- The 32-byte zero constant. -/
def ZERO32 : List Nat := List.replicate 32 0

/-- `Transaction.hasWitnesses`. -/
def hasWitnesses (tx : Transaction) : Bool :=
  tx.flag == 1 ||
  tx.ins.any (fun x => x.witness.length != 0) ||
  tx.outs.any (fun x => x.rangeProof.length != 0 && x.surjectionProof.length != 0)

/-- The wire outpoint index of `__toBuffer`: issuance flag into bit 31,
pegin flag into bit 30 (`prevIndex | FLAG` with `>>> 0`). -/
def packedIndex (i : Input) : Nat :=
  let p1 := if i.issuance.isSome then i.index ||| OUTPOINT_ISSUANCE_FLAG else i.index
  if i.isPegin then p1 ||| OUTPOINT_PEGIN_FLAG else p1

/-- One serialized input of `__toBuffer` (hash, packed index, script,
sequence, then the inline issuance fields when present). -/
def writeInput (i : Input) : List Nat :=
  i.hash ++ u32LE (packedIndex i) ++ writeVarSlice i.script ++ u32LE i.sequence ++
    (match i.issuance with
     | some iss => writeIssuance iss
     | none => [])

/-- One serialized output of `__toBuffer`; `subst` is the
`forSignature && hasWitnesses` case which replaces the confidential value
by a single 0x00 byte and appends an eight-byte zero before the script. -/
def writeOutput (subst : Bool) (o : Output) : List Nat :=
  o.asset ++ (if subst then [0] else o.value) ++ o.nonce ++
    (if subst then u64LE 0 else []) ++ writeVarSlice o.script

/-- Modelled from the spec: `write_confidential_in_fields`, mirroring the
read order. -/
def writeConfInFieldsOf (i : Input) : List Nat :=
  writeVarSlice i.issuanceRangeProof ++ writeVarSlice i.inflationRangeProof ++
    writeSliceVec i.witness ++ writeSliceVec i.peginWitness

/-- Modelled from the spec: `write_confidential_out_fields`, mirroring the
read order. -/
def writeConfOutFieldsOf (o : Output) : List Nat :=
  writeVarSlice o.surjectionProof ++ writeVarSlice o.rangeProof

/-- `Transaction.__toBuffer` modelled as a pure byte-list builder (the
TypeScript writes into a pre-allocated buffer; `byteLength_toBufferFull`
below checks the allocation bookkeeping against the emitted length). -/
def toBufferFull (tx : Transaction)
    (allowWitness forceZeroFlag forSignature : Bool) : List Nat :=
  let hasW := allowWitness && hasWitnesses tx
  writeInt32 tx.version ++
    (if forSignature then [] else [if hasW && !forceZeroFlag then 1 else 0]) ++
    writeVarInt tx.ins.length ++ (tx.ins.map writeInput).flatten ++
    writeVarInt tx.outs.length ++
    (tx.outs.map (writeOutput (forSignature && hasW))).flatten ++
    u32LE tx.locktime ++
    (if !forSignature && hasW then
      (tx.ins.map writeConfInFieldsOf).flatten ++ (tx.outs.map writeConfOutFieldsOf).flatten
     else [])

/-- Public `Transaction.toBuffer`: witness allowed, flag not forced,
not for signature. -/
def toBuffer (tx : Transaction) : List Nat := toBufferFull tx true false false

/-- `Transaction.__byteLength`. -/
def byteLengthFull (tx : Transaction) (allowWitness forSignature : Bool) : Nat :=
  (8 + (if forSignature then 0 else 1) +
    encodingLength tx.ins.length + encodingLength tx.outs.length) +
  (tx.ins.map (fun i =>
    40 + varSliceSize i.script +
      (match i.issuance with
       | some iss => 64 + iss.assetAmount.length + iss.tokenAmount.length
       | none => 0))).sum +
  (tx.outs.map (fun o =>
    o.asset.length + o.value.length + o.nonce.length + varSliceSize o.script)).sum +
  (if allowWitness && hasWitnesses tx then
    (tx.ins.map (fun i =>
      varSliceSize i.issuanceRangeProof + varSliceSize i.inflationRangeProof +
        encodingLength i.witness.length + (i.witness.map varSliceSize).sum +
        encodingLength i.peginWitness.length + (i.peginWitness.map varSliceSize).sum)).sum +
    (tx.outs.map (fun o =>
      varSliceSize o.surjectionProof + varSliceSize o.rangeProof)).sum
   else 0)

/-- Public `Transaction.byteLength`: the argument is passed through
`_ALLOW_WITNESS || true` before reaching `__byteLength`. -/
def byteLength (tx : Transaction) (allowWitness : Option Bool) : Nat :=
  byteLengthFull tx ((allowWitness.getD false) || true) false

/-- The input record built by one iteration of `fromBuffer`'s input loop. -/
def readInput (l : List Nat) : Option (Input × List Nat) := do
  let (h, r1) ← readSlice 32 l
  let (rawIndex, r2) ← readUInt32 r1
  let (scr, r3) ← readVarSlice r2
  let (seq, r4) ← readUInt32 r3
  if rawIndex = MINUS_1 then
    some ({ hash := h, index := rawIndex, script := scr, sequence := seq,
            witness := [], isPegin := false, issuance := none, peginWitness := [],
            issuanceRangeProof := [], inflationRangeProof := [] }, r4)
  else do
    let (iss, r5) ←
      if rawIndex &&& OUTPOINT_ISSUANCE_FLAG ≠ 0 then
        (readIssuance r4).map fun p => (some p.1, p.2)
      else some ((none : Option Issuance), r4)
    some ({ hash := h, index := rawIndex &&& OUTPOINT_INDEX_MASK, script := scr,
            sequence := seq, witness := [],
            isPegin := rawIndex &&& OUTPOINT_PEGIN_FLAG != 0, issuance := iss,
            peginWitness := [], issuanceRangeProof := [],
            inflationRangeProof := [] }, r5)

/-- The output record built by one iteration of `fromBuffer`'s output loop. -/
def readOutput (l : List Nat) : Option (Output × List Nat) := do
  let (asset, r1) ← readConfidentialAsset l
  let (value, r2) ← readConfidentialValue r1
  let (nonce, r3) ← readConfidentialNonce r2
  let (scr, r4) ← readVarSlice r3
  some ({ script := scr, value := value, asset := asset, nonce := nonce,
          rangeProof := [], surjectionProof := [] }, r4)

/-- The witness-suffix assignment `tx.ins[i].witness = …` of `fromBuffer`. -/
def applyInFields (i : Input) (f : InFields) : Input :=
  { i with issuanceRangeProof := f.irp, inflationRangeProof := f.infp,
           witness := f.wit, peginWitness := f.pwit }

/-- The witness-suffix assignment `tx.outs[i].rangeProof = …` of
`fromBuffer`. -/
def applyOutFields (o : Output) (f : OutFields) : Output :=
  { o with rangeProof := f.rp, surjectionProof := f.sp }

/-- `Transaction.fromBuffer`; `none` models a thrown error (`Truncated` or
the strict trailing-bytes check). -/
def fromBuffer (buf : List Nat) (noStrict : Bool) : Option Transaction := do
  let (version, r1) ← readInt32 buf
  let (flag, r2) ← readUInt8 r1
  let hasW := flag &&& 1 != 0
  let (vinLen, r3) ← readVarInt r2
  let (insBase, r4) ← readList readInput vinLen r3
  let (voutLen, r5) ← readVarInt r4
  let (outsBase, r6) ← readList readOutput voutLen r5
  let (locktime, r7) ← readUInt32 r6
  let (ins2, outs2, r10) ←
    if hasW then do
      let (inF, r8) ← readList readConfidentialInFields vinLen r7
      let (outF, r9) ← readList readConfidentialOutFields voutLen r8
      some (List.zipWith applyInFields insBase inF,
            List.zipWith applyOutFields outsBase outF, r9)
    else
      some (insBase, outsBase, r7)
  let tx : Transaction :=
    { version := version, locktime := locktime, flag := flag,
      ins := ins2, outs := outs2 }
  if noStrict then some tx
  else if r10 = [] then some tx else none

/-- Double SHA-256 (`bcrypto.hash256`), over an abstract `sha`. -/
def hash256 (sha : List Nat → List Nat) (m : List Nat) : List Nat := sha (sha m)

/-- `Transaction.isCoinbaseHash`; `none` models the `typeforce(Hash256bit)`
throw on a buffer that is not 32 bytes long. -/
def isCoinbaseHash (b : List Nat) : Option Bool :=
  if b.length = 32 then some (b.all (· = 0)) else none

/-- `Transaction.isCoinbase` (the `&&` short-circuits, so the hash check
only runs for exactly one input). -/
def isCoinbase (tx : Transaction) : Option Bool :=
  if h : tx.ins.length = 1 then
    isCoinbaseHash (tx.ins.head (by intro hn; simp [hn] at h)).hash
  else some false

/-- `Transaction.getHash`: the coinbase wtxid shortcut, else the double
SHA-256 of `__toBuffer(undefined, undefined, forWitness, true)`. -/
def getHash (sha : List Nat → List Nat) (tx : Transaction) (forWitness : Bool) :
    Option (List Nat) :=
  if forWitness then
    match isCoinbase tx with
    | none => none
    | some true => some (List.replicate 32 0)
    | some false => some (hash256 sha (toBufferFull tx forWitness true false))
  else some (hash256 sha (toBufferFull tx forWitness true false))

/-- Modelled from the spec: the `typeforce` checks of `validateIssuance`
(two 32-byte hashes; each amount a confidential value of 1, 9 or 33 bytes). -/
def validateIssuance (iss : Issuance) : Bool :=
  iss.assetBlindingNonce.length == 32 && iss.assetEntropy.length == 32 &&
  (iss.assetAmount.length == 1 || iss.assetAmount.length == 9 ||
    iss.assetAmount.length == 33) &&
  (iss.tokenAmount.length == 1 || iss.tokenAmount.length == 9 ||
    iss.tokenAmount.length == 33)

/-- `Transaction.addInput`.  `Except.error` models the thrown errors (the
`typeforce` argument checks, and the missing-issuance error); on success the
result is the updated transaction and the returned index.  The `sequence`
default is applied by the falsy test `sequence || DEFAULT_SEQUENCE`, and the
script default by `scriptSig || EMPTY_BUFFER` (an empty buffer is truthy). -/
def addInput (tx : Transaction) (hash : List Nat) (index : Nat)
    (sequence : Option Nat) (scriptSig : Option (List Nat))
    (issuance : Option Issuance) : Except String (Transaction × Nat) :=
  if ¬(hash.length = 32 ∧ index < 4294967296 ∧
        (∀ s ∈ sequence, s < 4294967296)) then .error "Expected property" else
  if index ≠ MINUS_1 ∧ index &&& OUTPOINT_ISSUANCE_FLAG ≠ 0 ∧ issuance.isNone then
    .error "Issuance flag has been set but the Issuance object is not defined or invalid"
  else if index ≠ MINUS_1 ∧ index &&& OUTPOINT_ISSUANCE_FLAG ≠ 0 ∧
      ¬(∀ iss ∈ issuance, validateIssuance iss = true) then
    .error "Expected property"
  else
    let isPegin := index ≠ MINUS_1 ∧ index &&& OUTPOINT_PEGIN_FLAG ≠ 0
    let index2 := if index ≠ MINUS_1 then index &&& OUTPOINT_INDEX_MASK else index
    .ok ({ tx with ins := tx.ins ++ [{
        hash := hash, index := index2, isPegin := isPegin, issuance := issuance,
        script := scriptSig.getD [], witness := [], peginWitness := [],
        issuanceRangeProof := [], inflationRangeProof := [],
        sequence := match sequence with
          | some s => if s = 0 then DEFAULT_SEQUENCE else s
          | none => DEFAULT_SEQUENCE }] },
      tx.ins.length)

/-- An element of a decompiled script: an opcode or a data push. -/
inductive ScriptElem where
  | op (code : Nat)
  | push (data : List Nat)
deriving DecidableEq

/-- Modelled from the spec: `script_decompile` (external `script.ts`), used
only to strip `OP_CODESEPARATOR` (0xAB).  Direct pushes 0x01–0x4B carry
their own length; 0x4C/0x4D/0x4E are PUSHDATA1/2/4; anything else is an
opcode.  The spec types it as total, so a truncated push takes the bytes
that remain.  Recursion is driven by a byte-count fuel that every step
stays under, keeping the definition structurally recursive. -/
def decompileScriptAux : Nat → List Nat → List ScriptElem
  | _, [] => []
  | 0, _ :: _ => []
  | fuel + 1, b :: rest =>
    if 1 ≤ b ∧ b ≤ 75 then
      ScriptElem.push (rest.take b) :: decompileScriptAux fuel (rest.drop b)
    else if b = 76 then
      match rest with
      | [] => [ScriptElem.op 76]
      | n :: r2 => ScriptElem.push (r2.take n) :: decompileScriptAux fuel (r2.drop n)
    else if b = 77 then
      match rest with
      | n1 :: n2 :: r2 =>
          ScriptElem.push (r2.take (n1 + 256 * n2)) ::
            decompileScriptAux fuel (r2.drop (n1 + 256 * n2))
      | _ => [ScriptElem.op 77]
    else if b = 78 then
      match rest with
      | n1 :: n2 :: n3 :: n4 :: r2 =>
          ScriptElem.push (r2.take (n1 + 256 * n2 + 65536 * n3 + 16777216 * n4)) ::
            decompileScriptAux fuel (r2.drop (n1 + 256 * n2 + 65536 * n3 + 16777216 * n4))
      | _ => [ScriptElem.op 78]
    else ScriptElem.op b :: decompileScriptAux fuel rest

def decompileScript (l : List Nat) : List ScriptElem :=
  decompileScriptAux l.length l

/-- Modelled from the spec: `script_compile` (external `script.ts`),
emitting the canonical push form for each element. -/
def compileScript (es : List ScriptElem) : List Nat :=
  (es.map fun e =>
    match e with
    | ScriptElem.op c => [c]
    | ScriptElem.push d =>
        if d.length ≤ 75 then d.length :: d
        else if d.length < 256 then 76 :: d.length :: d
        else if d.length < 65536 then 77 :: (u16LE d.length ++ d)
        else 78 :: (u32LE d.length ++ d)).flatten

/-- `prevOutScript` with every `OP_CODESEPARATOR` stripped
(`bscript.compile(bscript.decompile(s).filter(x => x !== OP_CODESEPARATOR))`). -/
def stripCodeSeparators (s : List Nat) : List Nat :=
  compileScript ((decompileScript s).filter (fun e => e ≠ ScriptElem.op 171))

/-- An output slot of the mutable heap: either an ordinary `Output` object,
or the `BLANK_OUTPUT` literal, which carries `valueBuffer` instead of
`value` — reading `.value` from it yields `undefined` (and a `TypeError`
as soon as serialization touches it). -/
inductive OutCell where
  | norm (o : Output)
  | blank
deriving DecidableEq

/-- The mutable object heap for the legacy-sighash model: JavaScript input
and output objects are cells addressed by index.  Buffers are modelled as
immutable values since no code path writes into a transaction-held buffer
in place. -/
structure Store where
  inCells : List Input
  outCells : List OutCell
deriving DecidableEq

def defaultInput : Input :=
  { hash := [], index := 0, script := [], sequence := 0, witness := [],
    isPegin := false, issuance := none, peginWitness := [],
    issuanceRangeProof := [], inflationRangeProof := [] }

/-- Read the input object at heap address `r`. -/
def getInCell (st : Store) (r : Nat) : Input := (st.inCells.get? r).getD defaultInput

/-- Overwrite the input object at heap address `r`. -/
def setInCell (st : Store) (r : Nat) (i : Input) : Store :=
  { st with inCells := st.inCells.set r i }

/-- Read the output cell at heap address `r`. -/
def getOutCell (st : Store) (r : Nat) : OutCell :=
  (st.outCells.get? r).getD OutCell.blank

/-- A transaction as the heap sees it: field values plus addresses of its
input and output objects. -/
structure HTx where
  version : Int
  locktime : Nat
  flag : Nat
  ins : List Nat
  outs : List Nat
deriving DecidableEq

/-- `Transaction.clone`: fresh input and output objects are allocated with
the field values copied (buffers by reference, which the model's immutable
buffer values make exact). -/
def clone (st : Store) (tx : HTx) : HTx × Store :=
  ({ version := tx.version, locktime := tx.locktime, flag := tx.flag,
     ins := (List.range tx.ins.length).map (st.inCells.length + ·),
     outs := (List.range tx.outs.length).map (st.outCells.length + ·) },
   { inCells := st.inCells ++ tx.ins.map (getInCell st),
     outCells := st.outCells ++ tx.outs.map (getOutCell st) })

/-- Read a heap transaction back into the value model; `none` when an
output slot holds `BLANK_OUTPUT` (whose `value` is `undefined`) or a
reference dangles. -/
def resolveTx (st : Store) (tx : HTx) : Option Transaction := do
  let ins ← tx.ins.mapM (fun r => st.inCells[r]?)
  let outCells ← tx.outs.mapM (fun r => st.outCells[r]?)
  let outs ← outCells.mapM fun c =>
    match c with
    | OutCell.norm o => some o
    | OutCell.blank => none
  some { version := tx.version, locktime := tx.locktime, flag := tx.flag,
         ins := ins, outs := outs }

/-- The `input.sequence = 0` loop of `hashForSignature` (skipping position
`skip`), applied to the clone's input objects. -/
def zeroSeqsAux : Store → List Nat → Nat → Nat → Store
  | st, [], _, _ => st
  | st, r :: rs, pos, skip =>
      zeroSeqsAux
        (if pos = skip then st
         else setInCell st r { getInCell st r with sequence := 0 })
        rs (pos + 1) skip

def zeroSeqs (st : Store) (refs : List Nat) (skip : Nat) : Store :=
  zeroSeqsAux st refs 0 skip

/-- The `input.script = EMPTY_BUFFER` loop of `hashForSignature`. -/
def blankScripts (st : Store) (refs : List Nat) : Store :=
  refs.foldl (fun s r => setInCell s r { getInCell s r with script := [] }) st

/-- The tail of `hashForSignature` after the output-mode mutations: the
input-mode mutations, then serialization with
allowWitness false, forceZeroFlag true, forSignature true, plus
the 32-bit `hashType` appended, then double SHA-256.  A `BLANK_OUTPUT` in
the clone makes the byte-length computation throw (`none`). -/
def legacyFinish (sha : List Nat → List Nat) (st : Store) (txTmp : HTx)
    (inIndex : Nat) (ourScript : List Nat) (hashType : Nat) :
    Option (List Nat) × Store :=
  let r := txTmp.ins.getD inIndex 0
  let txTmp2 := if hashType &&& 128 ≠ 0 then { txTmp with ins := [r] } else txTmp
  let st2 :=
    if hashType &&& 128 ≠ 0 then
      setInCell st r { getInCell st r with script := ourScript }
    else
      setInCell (blankScripts st txTmp.ins) r
        { getInCell (blankScripts st txTmp.ins) r with script := ourScript }
  match resolveTx st2 txTmp2 with
  | some t =>
      (some (hash256 sha (toBufferFull t false true true ++ u32LE hashType)), st2)
  | none => (none, st2)

/-- `Transaction.hashForSignature` over the heap model.  The result is the
digest (`none` for a thrown `TypeError`) together with the heap after the
call; the original transaction's objects are never written. -/
def hashForSignature (sha : List Nat → List Nat) (st : Store) (tx : HTx)
    (inIndex : Nat) (prevOutScript : List Nat) (hashType : Nat) :
    Option (List Nat) × Store :=
  if tx.ins.length ≤ inIndex then (some ONE32, st)
  else
    let ourScript := stripCodeSeparators prevOutScript
    let txTmp := (clone st tx).1
    let st1 := (clone st tx).2
    if hashType &&& 31 = 2 then
      let st2 := zeroSeqs st1 txTmp.ins inIndex
      legacyFinish sha st2 { txTmp with outs := [] } inIndex ourScript hashType
    else if hashType &&& 31 = 3 then
      if tx.outs.length ≤ inIndex then (some ONE32, st1)
      else
        let keep := txTmp.outs.getD inIndex 0
        let blankRefs := (List.range inIndex).map (st1.outCells.length + ·)
        let st2 := { st1 with
          outCells := st1.outCells ++ List.replicate inIndex OutCell.blank }
        let st3 := zeroSeqs st2 txTmp.ins inIndex
        legacyFinish sha st3 { txTmp with outs := blankRefs ++ [keep] }
          inIndex ourScript hashType
    else
      legacyFinish sha st1 txTmp inIndex ourScript hashType

def getIssuanceSize (txIn : Input) : Nat :=
  match txIn.issuance with
  | some iss =>
      iss.assetBlindingNonce.length + iss.assetEntropy.length +
        iss.assetAmount.length + iss.tokenAmount.length
  | none => 0

/-- `getInputFlag`: issuance bit 7, pegin bit 6
(`OUTPOINT_*_FLAG >>> 24`). -/
def getInputFlag (i : Input) : Nat :=
  (if i.issuance.isSome then 128 else 0) ||| (if i.isPegin then 64 else 0)

def getPrevoutsSHA256 (sha : List Nat → List Nat) (ins : List Input) : List Nat :=
  sha ((ins.map fun i => i.hash ++ u32LE i.index).flatten)

def getOutpointFlagsSHA256 (sha : List Nat → List Nat) (ins : List Input) : List Nat :=
  sha ((ins.map fun i => writeUInt8 (getInputFlag i)).flatten)

def getSpentAssetsAmountsSHA256 (sha : List Nat → List Nat)
    (pav : List (List Nat × List Nat)) : List Nat :=
  sha ((pav.map fun p => p.1 ++ p.2).flatten)

def getIssuanceProofsSHA256 (sha : List Nat → List Nat) (ins : List Input) : List Nat :=
  sha ((ins.map fun i =>
    writeVarSlice i.issuanceRangeProof ++ writeVarSlice i.inflationRangeProof).flatten)

/-- `getPrevoutScriptsSHA256`; `none` models the `TypeError` of
`[].reduce((a, b) => a + b)` on an empty scripts array. -/
def getPrevoutScriptsSHA256 (sha : List Nat → List Nat) (scripts : List (List Nat)) :
    Option (List Nat) :=
  match scripts with
  | [] => none
  | _ => some (sha ((scripts.map writeVarSlice).flatten))

def getSequenceSHA256 (sha : List Nat → List Nat) (ins : List Input) : List Nat :=
  sha ((ins.map fun i => u32LE i.sequence).flatten)

def getIssuanceSHA256 (sha : List Nat → List Nat) (ins : List Input) : List Nat :=
  sha ((ins.map fun i =>
    match i.issuance with
    | some iss => writeIssuance iss
    | none => [0]).flatten)

def getOutputsSHA256 (sha : List Nat → List Nat) (outs : List Output) : List Nat :=
  sha ((outs.map fun o => o.asset ++ o.value ++ o.nonce ++ writeVarSlice o.script).flatten)

def getOutputWitnessesSHA256 (sha : List Nat → List Nat) (outs : List Output) : List Nat :=
  sha ((outs.map fun o =>
    writeVarSlice o.surjectionProof ++ writeVarSlice o.rangeProof).flatten)

/-- ASCII bytes of the tag string of the Elements taproot sighash. -/
def tapSighashElementsTag : List Nat :=
  [84, 97, 112, 83, 105, 103, 104, 97, 115, 104, 47, 101, 108, 101, 109, 101,
   110, 116, 115]

/-- Modelled from the spec: `tagged_hash(label, msg) =
sha256(sha256(tag) ‖ sha256(tag) ‖ msg)`. -/
def taggedHashElements (sha : List Nat → List Nat) (msg : List Nat) : List Nat :=
  sha (sha tapSighashElementsTag ++ sha tapSighashElementsTag ++ msg)

/-- Everything of `hashForWitnessV1` after the companion-array length
check; `none` models a thrown `TypeError` (out-of-range index accesses in
the anyone-can-pay branch, or the empty-array `reduce` inside
`getPrevoutScriptsSHA256`). -/
def hashForWitnessV1Body (sha : List Nat → List Nat) (tx : Transaction)
    (inIndex : Nat) (prevOutScripts : List (List Nat))
    (prevoutAssetsValues : List (List Nat × List Nat)) (hashType : Nat)
    (genesisBlockHash : List Nat) (leafHash annex : Option (List Nat)) :
    Option (List Nat) :=
  let outputType := if hashType = 0 then 1 else hashType &&& 3
  let inputType := hashType &&& 128
  let isACP := inputType == 128
  let isNone := outputType == 2
  let isSingle := outputType == 3
  do
  let (hOutFlags, hPrev, hSpent, hScripts, hSeq, hIss, hIssProofs) ←
    if isACP then
      some (([] : List Nat), ([] : List Nat), ([] : List Nat), ([] : List Nat),
            ([] : List Nat), ([] : List Nat), ([] : List Nat))
    else do
      let hs ← getPrevoutScriptsSHA256 sha prevOutScripts
      some (getOutpointFlagsSHA256 sha tx.ins, getPrevoutsSHA256 sha tx.ins,
            getSpentAssetsAmountsSHA256 sha prevoutAssetsValues, hs,
            getSequenceSHA256 sha tx.ins, getIssuanceSHA256 sha tx.ins,
            getIssuanceProofsSHA256 sha tx.ins)
  let (hOutputs, hOutWit) :=
    if !(isNone || isSingle) then
      (getOutputsSHA256 sha tx.outs, getOutputWitnessesSHA256 sha tx.outs)
    else if isSingle && inIndex < tx.outs.length then
      match tx.outs.get? inIndex with
      | some o => (getOutputsSHA256 sha [o], getOutputWitnessesSHA256 sha [o])
      | none => ([], [])
    else ([], [])
  let spendType := (if leafHash.isSome then 2 else 0) + (if annex.isSome then 1 else 0)
  let inputPart ←
    if isACP then do
      let pav ← prevoutAssetsValues.get? inIndex
      let scr ← prevOutScripts.get? inIndex
      let input ← tx.ins.get? inIndex
      some (writeUInt8 (getInputFlag input) ++ input.hash ++ u32LE input.index ++
        pav.1 ++ pav.2 ++ writeVarSlice scr ++ u32LE input.sequence ++
        (match input.issuance with
         | some iss =>
             writeIssuance iss ++
               sha (writeVarSlice input.issuanceRangeProof ++
                 writeVarSlice input.inflationRangeProof)
         | none => [0]))
    else some (u32LE inIndex)
  let preimage :=
    genesisBlockHash ++ genesisBlockHash ++ writeUInt8 hashType ++
      writeInt32 tx.version ++ u32LE tx.locktime ++
      (if isACP then []
       else hOutFlags ++ hPrev ++ hSpent ++ hScripts ++ hSeq ++ hIss ++ hIssProofs) ++
      (if !(isNone || isSingle) then hOutputs ++ hOutWit else []) ++
      writeUInt8 spendType ++ inputPart ++
      (match annex with
       | some a => sha (writeVarSlice a)
       | none => []) ++
      (if isSingle then hOutputs ++ hOutWit else []) ++
      (match leafHash with
       | some lh => lh ++ writeUInt8 0 ++ u32LE 4294967295
       | none => [])
  some (taggedHashElements sha preimage)

/-- The error message of the companion-array length check
(`MismatchedPrevouts` in the spec's error taxonomy). -/
def mismatchedPrevoutsMsg : String :=
  "Must supply prevout script and value for all inputs"

/-- `Transaction.hashForWitnessV1`. -/
def hashForWitnessV1 (sha : List Nat → List Nat) (tx : Transaction)
    (inIndex : Nat) (prevOutScripts : List (List Nat))
    (prevoutAssetsValues : List (List Nat × List Nat)) (hashType : Nat)
    (genesisBlockHash : List Nat) (leafHash annex : Option (List Nat)) :
    Except String (List Nat) :=
  if prevOutScripts.length ≠ tx.ins.length then .error mismatchedPrevoutsMsg
  else
    match hashForWitnessV1Body sha tx inIndex prevOutScripts prevoutAssetsValues
        hashType genesisBlockHash leafHash annex with
    | some d => .ok d
    | none => .error "TypeError"

/-- Well-formed confidential value: the length matches the first byte's
announced width. -/
def wfConfValue (s : List Nat) : Bool :=
  match s with
  | [] => false
  | b :: _ => s.length == confValueLength b

/-- Well-formed confidential nonce. -/
def wfConfNonce (s : List Nat) : Bool :=
  match s with
  | [] => false
  | b :: _ => s.length == confNonceLength b

/-- Well-formed issuance record (the shape `fromBuffer` can produce). -/
def wfIssuance (iss : Issuance) : Bool :=
  iss.assetBlindingNonce.length == 32 && iss.assetEntropy.length == 32 &&
    wfConfValue iss.assetAmount && wfConfValue iss.tokenAmount

/-- The varint bound `2^64` as used by the well-formedness predicates. -/
def VARINT_MAX : Nat := 18446744073709551616

/-- Well-formed per-input witness field sizes. -/
def wfInFields (i : Input) : Bool :=
  i.issuanceRangeProof.length < VARINT_MAX &&
  i.inflationRangeProof.length < VARINT_MAX &&
  i.witness.length < VARINT_MAX && i.witness.all (fun w => w.length < VARINT_MAX) &&
  i.peginWitness.length < VARINT_MAX &&
  i.peginWitness.all (fun w => w.length < VARINT_MAX)

/-- The per-input witness fields as a record. -/
def inFieldsOf (i : Input) : InFields :=
  { irp := i.issuanceRangeProof, infp := i.inflationRangeProof,
    wit := i.witness, pwit := i.peginWitness }

/-- Well-formed per-output witness field sizes. -/
def wfOutFields (o : Output) : Bool :=
  o.surjectionProof.length < VARINT_MAX && o.rangeProof.length < VARINT_MAX

/-- The per-output witness fields as a record. -/
def outFieldsOf (o : Output) : OutFields :=
  { sp := o.surjectionProof, rp := o.rangeProof }

/-- The input as `fromBuffer`'s input loop reconstructs it (witness fields
at their defaults). -/
def stripIn (i : Input) : Input :=
  { i with witness := [], peginWitness := [], issuanceRangeProof := [],
           inflationRangeProof := [] }

/-- Well-formed input: 32-byte hash, 32-bit sequence, a logical index below
`2^30` whose packed form does not collide with the sentinel, or the genuine
sentinel with no flags; well-formed issuance when present. -/
def wfInput (i : Input) : Bool :=
  i.hash.length == 32 && i.sequence < 4294967296 && i.script.length < VARINT_MAX &&
  (match i.issuance with
   | some iss => wfIssuance iss
   | none => true) &&
  ((i.index < 1073741824 &&
      !(i.index == 1073741823 && i.issuance.isSome && i.isPegin)) ||
   (i.index == 4294967295 && i.issuance.isNone && !i.isPegin))

/-- The output as `fromBuffer`'s output loop reconstructs it (proof fields
empty). -/
def stripOut (o : Output) : Output :=
  { o with rangeProof := [], surjectionProof := [] }

/-- Well-formed output: 33-byte asset, self-describing confidential value
and nonce, script below the varint bound. -/
def wfOutput (o : Output) : Bool :=
  o.asset.length == 33 && wfConfValue o.value && wfConfNonce o.nonce &&
    o.script.length < VARINT_MAX

/-- Suffix fields of an input at their defaults. -/
def suffixEmptyIn (i : Input) : Bool :=
  i.witness.isEmpty && i.peginWitness.isEmpty && i.issuanceRangeProof.isEmpty &&
    i.inflationRangeProof.isEmpty

/-- Suffix fields of an output at their defaults. -/
def suffixEmptyOut (o : Output) : Bool :=
  o.rangeProof.isEmpty && o.surjectionProof.isEmpty

/-- Well-formed transaction: the shape `fromBuffer` can produce, which is
the domain of the spec's round-trip generator. -/
def wfTx (tx : Transaction) : Bool :=
  (decide (-2147483648 ≤ tx.version) && decide (tx.version < 2147483648)) &&
  tx.locktime < 4294967296 &&
  tx.ins.length < VARINT_MAX && tx.outs.length < VARINT_MAX &&
  tx.ins.all (fun i => wfInput i && wfInFields i) &&
  tx.outs.all (fun o => wfOutput o && wfOutFields o) &&
  (tx.flag == 1 ||
    (tx.flag == 0 && tx.ins.all suffixEmptyIn && tx.outs.all suffixEmptyOut))

/-! ### Frame lemmas for the legacy-sighash heap model -/

/-- `st'` agrees with `st` on every heap address below the given bounds. -/
def Preserves (st st' : Store) (bIn bOut : Nat) : Prop :=
  (∀ k, k < bIn → st'.inCells[k]? = st.inCells[k]?) ∧
  (∀ k, k < bOut → st'.outCells[k]? = st.outCells[k]?)

/-! ### Concrete fixtures -/

/-- A well-formed issuance record with an explicit asset amount and a null
token amount. -/
def exIss : Issuance :=
  { assetBlindingNonce := List.replicate 32 7, assetEntropy := List.replicate 32 8,
    assetAmount := [1, 0, 0, 0, 0, 0, 0, 0, 9], tokenAmount := [0] }

/-- A well-formed input carrying a witness element. -/
def exIn : Input :=
  { hash := List.replicate 32 1, index := 0, script := [], sequence := 4294967295,
    witness := [[170]], isPegin := false, issuance := none, peginWitness := [],
    issuanceRangeProof := [], inflationRangeProof := [] }

/-- A well-formed confidential output with an explicit 9-byte value. -/
def exOut : Output :=
  { script := [81], value := [1, 0, 0, 0, 0, 0, 0, 0, 5],
    asset := 1 :: List.replicate 32 2, nonce := [0], rangeProof := [],
    surjectionProof := [] }

/-- A well-formed one-in one-out transaction with witnesses
(`hasWitnesses` holds via the input witness and `flag = 1`). -/
def exTx : Transaction :=
  { version := 2, locktime := 0, flag := 1, ins := [exIn], outs := [exOut] }

/-- A heap holding `exTx`'s input and output objects. -/
def exStore : Store := { inCells := [exIn], outCells := [OutCell.norm exOut] }

/-- `exTx` as a heap transaction over `exStore`. -/
def exHTx : HTx := { version := 2, locktime := 0, flag := 1, ins := [0], outs := [0] }

/-- A two-input one-output heap (for the `SIGHASH_SINGLE` sentinel). -/
def exStore6 : Store :=
  { inCells := [exIn, { exIn with sequence := 5 }], outCells := [OutCell.norm exOut] }

def exHTx6 : HTx :=
  { version := 2, locktime := 0, flag := 1, ins := [0, 1], outs := [0] }

/-- The input at the sentinel-collision corner: logical index `0x3FFFFFFF`
with both the issuance and the pegin flag. -/
def exIn8 : Input :=
  { hash := List.replicate 32 3, index := 1073741823, script := [], sequence := 0,
    witness := [], isPegin := true, issuance := some exIss, peginWitness := [],
    issuanceRangeProof := [], inflationRangeProof := [] }

/-- A flagged input away from the corner (logical index 5, both flags). -/
def exIn8b : Input :=
  { hash := List.replicate 32 3, index := 5, script := [], sequence := 0,
    witness := [], isPegin := true, issuance := some exIss, peginWitness := [],
    issuanceRangeProof := [], inflationRangeProof := [] }

/-- A coinbase transaction: one input whose previous txid is 32 zero
bytes. -/
def exCb : Transaction :=
  { version := 2, locktime := 0, flag := 1,
    ins := [{ exIn with hash := List.replicate 32 0 }], outs := [exOut] }

/-- A concrete stand-in for the external `sha256` interface, used to
instantiate witnesses. -/
def constSha : List Nat → List Nat := fun _ => List.replicate 32 0

/-- The identity stand-in for `sha256`; with it `hash256` is the identity,
so a digest equals its own preimage and serialization facts become visible
in the result. -/
def idSha : List Nat → List Nat := fun l => l

/-- The input record `addInput` pushes (given the post-mask fields and the
stored sequence). -/
def mkAddedInput (hash : List Nat) (index : Nat) (scr : Option (List Nat))
    (iss : Option Issuance) (seq : Nat) : Input :=
  { hash := hash,
    index := if index ≠ MINUS_1 then index &&& OUTPOINT_INDEX_MASK else index,
    isPegin := index ≠ MINUS_1 ∧ index &&& OUTPOINT_PEGIN_FLAG ≠ 0,
    issuance := iss, script := scr.getD [], witness := [], peginWitness := [],
    issuanceRangeProof := [], inflationRangeProof := [], sequence := seq }

/-! ### Proofs -/

/-! ### Arithmetic helpers for the outpoint flag bits -/

lemma two_pow_mul_lor_eq_add (m : Nat) : ∀ k a, a < 2^m → 2^m * k ||| a = 2^m * k + a := by
  induction m with
  | zero =>
      intro k a ha
      interval_cases a
      simp
  | succ m ih =>
      intro k a ha
      have hq : a.div2 < 2^m := by
        rw [Nat.div2_val]
        omega
      have h1 : 2^(m+1) * k = Nat.bit false (2^m * k) := by
        simp [Nat.bit_val]
        ring
      have h2 : a = Nat.bit a.bodd a.div2 := (Nat.bit_decomp a).symm
      rw [h1, h2, Nat.lor_bit, ih k a.div2 hq]
      have hd := Nat.bit_decomp a
      rw [Nat.bit_val] at hd
      simp only [Nat.bit_val, Bool.false_or]
      have h3 : 2^(m+1) * k = 2 * (2^m * k) := by ring
      simp only [Bool.toNat_false]
      omega

lemma and_mask_eq_mod (x n : Nat) : x &&& (2^n - 1) = x % 2^n := by
  apply Nat.eq_of_testBit_eq
  intro i
  rw [Nat.testBit_land, Nat.testBit_two_pow_sub_one, Nat.testBit_mod_two_pow]
  rw [Bool.and_comm]

lemma and_two_pow_eq (x n : Nat) : x &&& 2^n = (if x / 2^n % 2 = 1 then 2^n else 0) := by
  rw [Nat.and_two_pow, Nat.testBit_to_div_mod]
  by_cases h : x / 2^n % 2 = 1 <;> simp [h]

/-- The packed wire index in arithmetic form, for logical indices below
`2^30`. -/
lemma packedIndex_eq (i : Input) (h : i.index < 1073741824) :
    packedIndex i =
      i.index + (if i.issuance.isSome then 2147483648 else 0) +
        (if i.isPegin then 1073741824 else 0) := by
  unfold packedIndex OUTPOINT_ISSUANCE_FLAG OUTPOINT_PEGIN_FLAG
  have e31 : (2147483648 : Nat) = 2^31 * 1 := by norm_num
  have e30 : (1073741824 : Nat) = 2^30 * 1 := by norm_num
  cases hiss : i.issuance.isSome <;> cases hpeg : i.isPegin <;>
    simp only [hiss, hpeg, Bool.false_eq_true, if_true, if_false, if_neg, if_pos]
  · omega
  · rw [e30, Nat.lor_comm, two_pow_mul_lor_eq_add 30 1 i.index (by omega)]
    omega
  · rw [Nat.lor_comm, e31, two_pow_mul_lor_eq_add 31 1 i.index (by omega)]
    omega
  · rw [Nat.lor_assoc]
    have hc : (2147483648 : Nat) ||| 1073741824 = 3221225472 := by decide
    rw [Nat.lor_comm i.index, Nat.lor_comm, hc]
    have e3 : (3221225472 : Nat) = 2^30 * 3 := by norm_num
    rw [e3, Nat.lor_comm, two_pow_mul_lor_eq_add 30 3 i.index (by omega)]
    omega

/-! ### Round-trip lemmas for the byte-cursor primitives -/

lemma readSlice_append (s r : List Nat) : readSlice s.length (s ++ r) = some (s, r) := by
  unfold readSlice
  rw [if_pos (by simp)]
  simp [List.take_left, List.drop_left]

lemma readSlice_append_of_len (n : Nat) (s r : List Nat) (h : s.length = n) :
    readSlice n (s ++ r) = some (s, r) := by
  subst h
  exact readSlice_append s r

lemma readUInt16_u16LE (n : Nat) (r : List Nat) :
    readUInt16 (u16LE n ++ r) = some (n % 65536, r) := by
  simp only [u16LE, List.cons_append, List.nil_append, readUInt16,
    Option.some.injEq, Prod.mk.injEq]
  exact ⟨by omega, trivial⟩

lemma readUInt32_u32LE (n : Nat) (r : List Nat) :
    readUInt32 (u32LE n ++ r) = some (n % 4294967296, r) := by
  simp only [u32LE, List.cons_append, List.nil_append, readUInt32,
    Option.some.injEq, Prod.mk.injEq]
  exact ⟨by omega, trivial⟩

lemma readUInt64_u64LE (n : Nat) (r : List Nat) :
    readUInt64 (u64LE n ++ r) = some (n % 18446744073709551616, r) := by
  simp only [u64LE, u32LE, List.cons_append, List.nil_append, readUInt64,
    Option.some.injEq, Prod.mk.injEq]
  exact ⟨by omega, trivial⟩

lemma readInt32_writeInt32 (v : Int) (r : List Nat)
    (h1 : -2147483648 ≤ v) (h2 : v < 2147483648) :
    readInt32 (writeInt32 v ++ r) = some (v, r) := by
  unfold writeInt32 readInt32
  rw [readUInt32_u32LE]
  have hm : (0 : Int) ≤ v % 4294967296 := Int.emod_nonneg v (by norm_num)
  have hm2 : v % 4294967296 < 4294967296 := Int.emod_lt_of_pos v (by norm_num)
  have hmod : ((v % 4294967296).toNat : Int) = v % 4294967296 := Int.toNat_of_nonneg hm
  have hsmall : (v % 4294967296).toNat % 4294967296 = (v % 4294967296).toNat := by
    apply Nat.mod_eq_of_lt
    omega
  rw [hsmall]
  simp only [Option.map_some', Option.map_some, Option.some.injEq, Prod.mk.injEq]
  refine ⟨?_, trivial⟩
  split
  · omega
  · omega

lemma readVarInt_writeVarInt (n : Nat) (r : List Nat) (h : n < 18446744073709551616) :
    readVarInt (writeVarInt n ++ r) = some (n, r) := by
  unfold writeVarInt
  by_cases h1 : n < 253
  · rw [if_pos h1]
    simp [readVarInt, h1]
  · rw [if_neg h1]
    by_cases h2 : n < 65536
    · rw [if_pos h2]
      have e : readVarInt ((253 :: u16LE n) ++ r) = readUInt16 (u16LE n ++ r) := by
        simp [readVarInt]
      rw [e, readUInt16_u16LE]
      simp only [Option.some.injEq, Prod.mk.injEq]
      exact ⟨by omega, trivial⟩
    · rw [if_neg h2]
      by_cases h3 : n < 4294967296
      · rw [if_pos h3]
        have e : readVarInt ((254 :: u32LE n) ++ r) = readUInt32 (u32LE n ++ r) := by
          simp [readVarInt]
        rw [e, readUInt32_u32LE]
        simp only [Option.some.injEq, Prod.mk.injEq]
        exact ⟨by omega, trivial⟩
      · rw [if_neg h3]
        have e : readVarInt ((255 :: u64LE n) ++ r) = readUInt64 (u64LE n ++ r) := by
          simp [readVarInt]
        rw [e, readUInt64_u64LE]
        simp only [Option.some.injEq, Prod.mk.injEq]
        exact ⟨by omega, trivial⟩

lemma readVarSlice_writeVarSlice (s : List Nat) (r : List Nat)
    (h : s.length < 18446744073709551616) :
    readVarSlice (writeVarSlice s ++ r) = some (s, r) := by
  unfold readVarSlice writeVarSlice
  rw [List.append_assoc, readVarInt_writeVarInt s.length (s ++ r) h]
  simp only [Option.bind_eq_bind, Option.some_bind]
  exact readSlice_append s r

lemma readConfidentialValue_append (s r : List Nat) (h : wfConfValue s = true) :
    readConfidentialValue (s ++ r) = some (s, r) := by
  match s, h with
  | b :: t, h =>
    simp only [wfConfValue, beq_iff_eq] at h
    simp only [List.cons_append, readConfidentialValue]
    rw [← List.cons_append]
    exact readSlice_append_of_len _ _ _ h

lemma readConfidentialNonce_append (s r : List Nat) (h : wfConfNonce s = true) :
    readConfidentialNonce (s ++ r) = some (s, r) := by
  match s, h with
  | b :: t, h =>
    simp only [wfConfNonce, beq_iff_eq] at h
    simp only [List.cons_append, readConfidentialNonce]
    rw [← List.cons_append]
    exact readSlice_append_of_len _ _ _ h

lemma readIssuance_writeIssuance (iss : Issuance) (r : List Nat)
    (h : wfIssuance iss = true) :
    readIssuance (writeIssuance iss ++ r) = some (iss, r) := by
  simp only [wfIssuance, Bool.and_eq_true, beq_iff_eq] at h
  obtain ⟨⟨⟨h1, h2⟩, h3⟩, h4⟩ := h
  unfold readIssuance writeIssuance
  rw [List.append_assoc, List.append_assoc, List.append_assoc]
  rw [readSlice_append_of_len 32 _ _ h1]
  simp only [Option.bind_eq_bind, Option.some_bind]
  rw [readSlice_append_of_len 32 _ _ h2]
  simp only [Option.some_bind]
  rw [readConfidentialValue_append _ _ h3]
  simp only [Option.some_bind]
  rw [readConfidentialValue_append _ _ h4]
  simp only [Option.some_bind]

lemma readList_append {α β : Type} (read : List Nat → Option (α × List Nat))
    (w : β → List Nat) (f : β → α) (xs : List β)
    (h : ∀ x ∈ xs, ∀ r, read (w x ++ r) = some (f x, r)) (rest : List Nat) :
    readList read xs.length ((xs.map w).flatten ++ rest) = some (xs.map f, rest) := by
  induction xs with
  | nil => simp [readList]
  | cons x xs ih =>
      simp only [List.map_cons, List.flatten_cons, List.length_cons, readList,
        List.append_assoc]
      rw [h x (by simp) _]
      simp only [Option.bind_eq_bind, Option.some_bind]
      rw [ih (fun y hy r => h y (by simp [hy]) r)]
      simp

lemma readSliceVec_writeSliceVec (ws : List (List Nat)) (r : List Nat)
    (hn : ws.length < 18446744073709551616)
    (h : ∀ w ∈ ws, w.length < 18446744073709551616) :
    readSliceVec (writeSliceVec ws ++ r) = some (ws, r) := by
  unfold readSliceVec writeSliceVec
  rw [List.append_assoc, readVarInt_writeVarInt _ _ hn]
  simp only [Option.bind_eq_bind, Option.some_bind]
  have := readList_append readVarSlice writeVarSlice id ws
    (fun x hx rr => readVarSlice_writeVarSlice x rr (h x hx)) r
  simpa using this

lemma readConfidentialInFields_write (i : Input) (r : List Nat)
    (h : wfInFields i = true) :
    readConfidentialInFields (writeConfInFieldsOf i ++ r) = some (inFieldsOf i, r) := by
  simp only [wfInFields, Bool.and_eq_true, decide_eq_true_eq, List.all_eq_true] at h
  obtain ⟨⟨⟨⟨⟨h1, h2⟩, h3⟩, h4⟩, h5⟩, h6⟩ := h
  unfold readConfidentialInFields writeConfInFieldsOf
  rw [List.append_assoc, List.append_assoc, List.append_assoc]
  rw [readVarSlice_writeVarSlice _ _ h1]
  simp only [Option.bind_eq_bind, Option.some_bind]
  rw [readVarSlice_writeVarSlice _ _ h2]
  simp only [Option.some_bind]
  rw [readSliceVec_writeSliceVec _ _ h3 (fun w hw => by simpa using h4 w hw)]
  simp only [Option.some_bind]
  rw [readSliceVec_writeSliceVec _ _ h5 (fun w hw => by simpa using h6 w hw)]
  simp only [Option.some_bind]
  rfl

lemma readConfidentialOutFields_write (o : Output) (r : List Nat)
    (h : wfOutFields o = true) :
    readConfidentialOutFields (writeConfOutFieldsOf o ++ r) = some (outFieldsOf o, r) := by
  simp only [wfOutFields, Bool.and_eq_true, decide_eq_true_eq] at h
  obtain ⟨h1, h2⟩ := h
  unfold readConfidentialOutFields writeConfOutFieldsOf
  rw [List.append_assoc]
  rw [readVarSlice_writeVarSlice _ _ h1]
  simp only [Option.bind_eq_bind, Option.some_bind]
  rw [readVarSlice_writeVarSlice _ _ h2]
  simp only [Option.some_bind]
  rfl

lemma readInput_writeInput (i : Input) (rest : List Nat) (h : wfInput i = true) :
    readInput (writeInput i ++ rest) = some (stripIn i, rest) := by
  simp only [wfInput, Bool.and_eq_true, Bool.or_eq_true, decide_eq_true_eq,
    beq_iff_eq, Bool.not_eq_true', Bool.and_eq_false_iff] at h
  obtain ⟨⟨⟨⟨hhash, hseq⟩, hscr⟩, hiss⟩, hidx⟩ := h
  rcases hidx with ⟨hlt, hnc⟩ | ⟨⟨hsent, hnone⟩, hnp⟩
  · -- logical index below 2^30: the flag bits are packed and unpacked
    have harith := packedIndex_eq i hlt
    have hPlt : packedIndex i < 4294967296 := by
      rw [harith]; split_ifs <;> omega
    have hdiv31 : packedIndex i / 2147483648 = (if i.issuance.isSome then 1 else 0) := by
      rw [harith]; split_ifs <;> omega
    have hdiv30 : packedIndex i / 1073741824 % 2 = (if i.isPegin then 1 else 0) := by
      rw [harith]; split_ifs <;> omega
    have hmod30 : packedIndex i % 1073741824 = i.index := by
      rw [harith]; split_ifs <;> omega
    have hPne : packedIndex i ≠ 4294967295 := by
      intro hEq
      rw [harith] at hEq
      have hc : i.index = 1073741823 ∧ i.issuance.isSome = true ∧ i.isPegin = true := by
        split_ifs at hEq with h1 h2 h2
        · exact ⟨by omega, h1, h2⟩
        · omega
        · omega
        · omega
      rcases hnc with (h | h) | h
      · simp only [beq_eq_false_iff_ne, ne_eq] at h
        exact h hc.1
      · simp [h] at hc
      · simp [h] at hc
    have hand31 : packedIndex i &&& OUTPOINT_ISSUANCE_FLAG =
        (if i.issuance.isSome then 2147483648 else 0) := by
      unfold OUTPOINT_ISSUANCE_FLAG
      rw [show (2147483648 : Nat) = 2^31 by norm_num, and_two_pow_eq]
      have h31 : packedIndex i / 2^31 % 2 = (if i.issuance.isSome then 1 else 0) := by
        rw [show (2:Nat)^31 = 2147483648 by norm_num, hdiv31]
        split_ifs <;> omega
      rw [h31]
      split_ifs <;> simp_all
    have hand30 : packedIndex i &&& OUTPOINT_PEGIN_FLAG =
        (if i.isPegin then 1073741824 else 0) := by
      unfold OUTPOINT_PEGIN_FLAG
      rw [show (1073741824 : Nat) = 2^30 by norm_num, and_two_pow_eq]
      have h30 : packedIndex i / 2^30 % 2 = (if i.isPegin then 1 else 0) := by
        rw [show (2:Nat)^30 = 1073741824 by norm_num]
        exact hdiv30
      rw [h30]
      split_ifs <;> simp_all
    have hmask : packedIndex i &&& OUTPOINT_INDEX_MASK = i.index := by
      unfold OUTPOINT_INDEX_MASK
      rw [show (1073741823 : Nat) = 2^30 - 1 by norm_num, and_mask_eq_mod]
      rw [show (2:Nat)^30 = 1073741824 by norm_num]
      exact hmod30
    have hpeg : (packedIndex i &&& OUTPOINT_PEGIN_FLAG != 0) = i.isPegin := by
      rw [hand30]
      cases hp : i.isPegin <;> simp
    unfold writeInput readInput
    simp only [List.append_assoc]
    rw [readSlice_append_of_len 32 _ _ hhash]
    simp only [Option.bind_eq_bind, Option.some_bind]
    rw [readUInt32_u32LE, Nat.mod_eq_of_lt hPlt]
    simp only [Option.some_bind]
    cases hi : i.issuance with
    | none =>
        simp only [hi, List.nil_append]
        rw [readVarSlice_writeVarSlice _ _ hscr]
        simp only [Option.some_bind]
        rw [readUInt32_u32LE, Nat.mod_eq_of_lt hseq]
        simp only [Option.some_bind]
        rw [if_neg (by unfold MINUS_1; exact hPne)]
        rw [if_neg (by rw [hand31, hi]; simp)]
        rw [hmask, hpeg]
        simp [stripIn, hi]
    | some iss0 =>
        simp only [hi]
        rw [readVarSlice_writeVarSlice _ _ hscr]
        simp only [Option.some_bind]
        rw [readUInt32_u32LE, Nat.mod_eq_of_lt hseq]
        simp only [Option.some_bind]
        rw [if_neg (by unfold MINUS_1; exact hPne)]
        rw [if_pos (by rw [hand31, hi]; simp)]
        rw [hi] at hiss
        rw [readIssuance_writeIssuance iss0 rest hiss]
        simp only [Option.map_some', Option.map_some, Option.some_bind]
        rw [hmask, hpeg]
        simp [stripIn, hi]
  · -- the sentinel is written unchanged and read back unchanged
    rw [Option.isNone_iff_eq_none] at hnone
    have hP : packedIndex i = 4294967295 := by
      unfold packedIndex
      simp [hnone, hnp, hsent]
    unfold writeInput readInput
    simp only [List.append_assoc]
    rw [readSlice_append_of_len 32 _ _ hhash]
    simp only [Option.bind_eq_bind, Option.some_bind]
    rw [readUInt32_u32LE, Nat.mod_eq_of_lt (by rw [hP]; norm_num)]
    simp only [Option.some_bind]
    rw [hnone]
    simp only [List.nil_append]
    rw [readVarSlice_writeVarSlice _ _ hscr]
    simp only [Option.some_bind]
    rw [readUInt32_u32LE, Nat.mod_eq_of_lt hseq]
    simp only [Option.some_bind]
    rw [hP]
    simp [stripIn, hnone, hnp, hsent, MINUS_1]

lemma readOutput_writeOutput (o : Output) (rest : List Nat) (h : wfOutput o = true) :
    readOutput (writeOutput false o ++ rest) = some (stripOut o, rest) := by
  simp only [wfOutput, Bool.and_eq_true, decide_eq_true_eq, beq_iff_eq] at h
  obtain ⟨⟨⟨hasset, hval⟩, hnonce⟩, hscr⟩ := h
  unfold writeOutput readOutput readConfidentialAsset
  simp only [Bool.false_and, if_neg, List.append_assoc, List.nil_append,
    Bool.false_eq_true, if_false]
  rw [readSlice_append_of_len 33 _ _ hasset]
  simp only [Option.bind_eq_bind, Option.some_bind]
  rw [readConfidentialValue_append _ _ hval]
  simp only [Option.some_bind]
  rw [readConfidentialNonce_append _ _ hnonce]
  simp only [Option.some_bind]
  rw [readVarSlice_writeVarSlice _ _ hscr]
  simp only [Option.some_bind]
  rfl

lemma applyInFields_stripIn (i : Input) :
    applyInFields (stripIn i) (inFieldsOf i) = i := rfl

lemma applyOutFields_stripOut (o : Output) :
    applyOutFields (stripOut o) (outFieldsOf o) = o := rfl

lemma zipWith_apply_ins (l : List Input) :
    List.zipWith applyInFields (l.map stripIn) (l.map inFieldsOf) = l := by
  induction l with
  | nil => rfl
  | cons x xs ih => simp [List.zipWith, applyInFields_stripIn, ih]

lemma zipWith_apply_outs (l : List Output) :
    List.zipWith applyOutFields (l.map stripOut) (l.map outFieldsOf) = l := by
  induction l with
  | nil => rfl
  | cons x xs ih => simp [List.zipWith, applyOutFields_stripOut, ih]

lemma stripIn_of_suffixEmpty (i : Input) (h : suffixEmptyIn i = true) :
    stripIn i = i := by
  cases i
  simp_all [stripIn, suffixEmptyIn, List.isEmpty_iff]

lemma stripOut_of_suffixEmpty (o : Output) (h : suffixEmptyOut o = true) :
    stripOut o = o := by
  cases o
  simp_all [stripOut, suffixEmptyOut, List.isEmpty_iff]

lemma hasWitnesses_false_of_empties (tx : Transaction)
    (hi : tx.ins.all suffixEmptyIn = true) (ho : tx.outs.all suffixEmptyOut = true)
    (hf : tx.flag = 0) : hasWitnesses tx = false := by
  unfold hasWitnesses
  rw [hf]
  simp only [List.all_eq_true] at hi ho
  simp only [Bool.or_eq_false_iff]
  refine ⟨⟨by decide, ?_⟩, ?_⟩
  · rw [List.any_eq_false]
    intro i hmem
    have := hi i hmem
    simp_all [suffixEmptyIn, List.isEmpty_iff]
  · rw [List.any_eq_false]
    intro o hmem
    have := ho o hmem
    simp_all [suffixEmptyOut, List.isEmpty_iff]

lemma map_id_of {α : Type} (l : List α) (f : α → α) (h : ∀ x ∈ l, f x = x) :
    l.map f = l := by
  induction l with
  | nil => rfl
  | cons x xs ih =>
      simp only [List.map_cons, h x (by simp), List.cons.injEq, true_and]
      exact ih fun y hy => h y (by simp [hy])

set_option maxHeartbeats 1000000 in
lemma roundtrip (tx : Transaction) (h : wfTx tx = true) :
    fromBuffer (toBuffer tx) false = some tx := by
  simp only [wfTx, Bool.and_eq_true, Bool.or_eq_true, decide_eq_true_eq,
    beq_iff_eq, List.all_eq_true] at h
  obtain ⟨⟨⟨⟨⟨⟨⟨hv1, hv2⟩, hlock⟩, hinsN⟩, houtsN⟩, hins⟩, houts⟩, hflag⟩ := h
  have hwfIn : ∀ i ∈ tx.ins, wfInput i = true := fun i hi => by
    have := hins i hi; simp_all
  have hwfInF : ∀ i ∈ tx.ins, wfInFields i = true := fun i hi => by
    have := hins i hi; simp_all
  have hwfOut : ∀ o ∈ tx.outs, wfOutput o = true := fun o ho => by
    have := houts o ho; simp_all
  have hwfOutF : ∀ o ∈ tx.outs, wfOutFields o = true := fun o ho => by
    have := houts o ho; simp_all
  by_cases hW : hasWitnesses tx = true
  · -- extended serialization: flag byte 1 and the witness suffix present
    have hfl : tx.flag = 1 := by
      rcases hflag with h1 | ⟨⟨h0, hie⟩, hoe⟩
      · exact h1
      · rw [hasWitnesses_false_of_empties tx (by simp [List.all_eq_true]; exact hie)
          (by simp [List.all_eq_true]; exact hoe) h0] at hW
        cases hW
    unfold toBuffer toBufferFull fromBuffer
    simp only [hW, Bool.and_true, Bool.true_and, Bool.and_self, Bool.not_false,
      if_true, if_neg, Bool.false_eq_true, if_false, List.append_assoc]
    rw [readInt32_writeInt32 _ _ hv1 hv2]
    simp only [Option.bind_eq_bind, Option.some_bind]
    simp only [readUInt8, List.cons_append, List.nil_append]
    simp only [Option.some_bind]
    rw [readVarInt_writeVarInt _ _ hinsN]
    simp only [Option.some_bind]
    rw [readList_append readInput writeInput stripIn tx.ins
      (fun i hi r => readInput_writeInput i r (hwfIn i hi)) _]
    simp only [Option.some_bind]
    rw [readVarInt_writeVarInt _ _ houtsN]
    simp only [Option.some_bind]
    rw [readList_append readOutput (writeOutput false) stripOut tx.outs
      (fun o ho r => readOutput_writeOutput o r (hwfOut o ho)) _]
    simp only [Option.some_bind]
    rw [readUInt32_u32LE, Nat.mod_eq_of_lt hlock]
    simp only [Option.some_bind]
    simp only [show ((1 : Nat) &&& 1 != 0) = true from rfl, if_true,
      List.length_map, List.append_nil]
    rw [readList_append readConfidentialInFields writeConfInFieldsOf inFieldsOf tx.ins
      (fun i hi r => readConfidentialInFields_write i r (hwfInF i hi)) _]
    simp only [Option.some_bind]
    rw [show (List.map writeConfOutFieldsOf tx.outs).flatten =
        (List.map writeConfOutFieldsOf tx.outs).flatten ++ [] from
      (List.append_nil _).symm]
    rw [readList_append readConfidentialOutFields writeConfOutFieldsOf outFieldsOf tx.outs
      (fun o ho r => readConfidentialOutFields_write o r (hwfOutF o ho)) _]
    simp only [Option.some_bind]
    rw [zipWith_apply_ins, zipWith_apply_outs]
    rw [if_pos trivial, ← hfl]
  · -- base serialization: flag byte 0 and no suffix
    have hWf : hasWitnesses tx = false := by simp_all
    have hfl : tx.flag = 0 ∧ (∀ i ∈ tx.ins, suffixEmptyIn i = true) ∧
        (∀ o ∈ tx.outs, suffixEmptyOut o = true) := by
      rcases hflag with h1 | ⟨⟨h0, hie⟩, hoe⟩
      · unfold hasWitnesses at hWf
        rw [h1] at hWf
        simp at hWf
      · exact ⟨h0, hie, hoe⟩
    unfold toBuffer toBufferFull fromBuffer
    simp only [hWf, Bool.true_and, Bool.and_false, Bool.false_and, Bool.not_false,
      Bool.false_eq_true, if_false, List.append_nil, List.append_assoc]
    rw [readInt32_writeInt32 _ _ hv1 hv2]
    simp only [Option.bind_eq_bind, Option.some_bind]
    simp only [readUInt8, List.cons_append, List.nil_append]
    simp only [Option.some_bind]
    rw [readVarInt_writeVarInt _ _ hinsN]
    simp only [Option.some_bind]
    rw [readList_append readInput writeInput stripIn tx.ins
      (fun i hi r => readInput_writeInput i r (hwfIn i hi)) _]
    simp only [Option.some_bind]
    rw [readVarInt_writeVarInt _ _ houtsN]
    simp only [Option.some_bind]
    rw [readList_append readOutput (writeOutput false) stripOut tx.outs
      (fun o ho r => readOutput_writeOutput o r (hwfOut o ho)) _]
    simp only [Option.some_bind]
    rw [show u32LE tx.locktime = u32LE tx.locktime ++ [] from (List.append_nil _).symm]
    rw [readUInt32_u32LE, Nat.mod_eq_of_lt hlock]
    simp only [Option.some_bind]
    rw [if_neg (by decide), if_pos trivial]
    rw [map_id_of tx.ins stripIn
      (fun i hi => stripIn_of_suffixEmpty i (hfl.2.1 i hi))]
    rw [map_id_of tx.outs stripOut
      (fun o ho => stripOut_of_suffixEmpty o (hfl.2.2 o ho))]
    rw [← hfl.1]

/-! ### Emitted length equals `__byteLength` (buffer preallocation check) -/

lemma length_writeVarInt (n : Nat) : (writeVarInt n).length = encodingLength n := by
  unfold writeVarInt encodingLength
  split_ifs <;> simp [u16LE, u32LE, u64LE]

lemma length_writeVarSlice (s : List Nat) :
    (writeVarSlice s).length = varSliceSize s := by
  simp [writeVarSlice, varSliceSize, length_writeVarInt]

lemma length_writeSliceVec (ws : List (List Nat)) :
    (writeSliceVec ws).length =
      encodingLength ws.length + (ws.map varSliceSize).sum := by
  unfold writeSliceVec
  rw [List.length_append, length_writeVarInt, List.length_flatten, List.map_map]
  congr 1
  exact congrArg List.sum (List.map_congr_left fun x _ => length_writeVarSlice x)

lemma length_writeInput (i : Input) (hhash : i.hash.length = 32)
    (hwfiss : (match i.issuance with
               | some iss => wfIssuance iss
               | none => true) = true) :
    (writeInput i).length =
      40 + varSliceSize i.script +
        (match i.issuance with
         | some iss => 64 + iss.assetAmount.length + iss.tokenAmount.length
         | none => 0) := by
  unfold writeInput
  cases hi : i.issuance with
  | none =>
      simp [hhash, u32LE, length_writeVarSlice]
      omega
  | some iss =>
      rw [hi] at hwfiss
      simp only [wfIssuance, Bool.and_eq_true, beq_iff_eq] at hwfiss
      obtain ⟨⟨⟨h1, h2⟩, _⟩, _⟩ := hwfiss
      simp [hhash, u32LE, length_writeVarSlice, writeIssuance, h1, h2]
      omega

lemma length_writeOutput (o : Output) :
    (writeOutput false o).length =
      o.asset.length + o.value.length + o.nonce.length + varSliceSize o.script := by
  simp [writeOutput, length_writeVarSlice]
  omega

lemma length_writeConfInFieldsOf (i : Input) :
    (writeConfInFieldsOf i).length =
      varSliceSize i.issuanceRangeProof + varSliceSize i.inflationRangeProof +
        encodingLength i.witness.length + (i.witness.map varSliceSize).sum +
        encodingLength i.peginWitness.length +
        (i.peginWitness.map varSliceSize).sum := by
  simp [writeConfInFieldsOf, length_writeVarSlice, length_writeSliceVec]
  omega

lemma length_writeConfOutFieldsOf (o : Output) :
    (writeConfOutFieldsOf o).length =
      varSliceSize o.surjectionProof + varSliceSize o.rangeProof := by
  simp [writeConfOutFieldsOf, length_writeVarSlice]

lemma length_flatten_map {α : Type} (l : List α) (w : α → List Nat) (g : α → Nat)
    (h : ∀ x ∈ l, (w x).length = g x) :
    (l.map w).flatten.length = (l.map g).sum := by
  rw [List.length_flatten, List.map_map]
  congr 1
  exact List.map_congr_left fun x hx => h x hx

/-- The serializer emits exactly `__byteLength` bytes (for the
`forSignature = false` modes, which are the ones `toBuffer` and `getHash`
use); this is the bookkeeping that justifies the TypeScript's
`Buffer.allocUnsafe(byteLength)` preallocation. -/
lemma length_toBufferFull (tx : Transaction) (w fz : Bool) (h : wfTx tx = true) :
    (toBufferFull tx w fz false).length = byteLengthFull tx w false := by
  simp only [wfTx, Bool.and_eq_true, Bool.or_eq_true, decide_eq_true_eq,
    beq_iff_eq, List.all_eq_true] at h
  obtain ⟨⟨⟨⟨⟨⟨⟨hv1, hv2⟩, hlock⟩, hinsN⟩, houtsN⟩, hins⟩, houts⟩, hflag⟩ := h
  have hlin := length_flatten_map tx.ins writeInput _
    (fun i hi => length_writeInput i
      (by have := hins i hi
          simp only [wfInput, Bool.and_eq_true, beq_iff_eq] at this
          exact this.1.1.1.1.1)
      (by have := hins i hi
          simp only [wfInput, Bool.and_eq_true, beq_iff_eq] at this
          exact this.1.1.2))
  have hlout := length_flatten_map tx.outs (writeOutput false) _
    (fun o _ => length_writeOutput o)
  have hlinF := length_flatten_map tx.ins writeConfInFieldsOf _
    (fun i _ => length_writeConfInFieldsOf i)
  have hloutF := length_flatten_map tx.outs writeConfOutFieldsOf _
    (fun o _ => length_writeConfOutFieldsOf o)
  unfold toBufferFull byteLengthFull
  cases hw : w && hasWitnesses tx with
  | false =>
      simp only [hw, Bool.not_false, Bool.true_and, Bool.and_false,
        Bool.false_and, Bool.false_eq_true, if_false, List.append_nil]
      simp only [List.length_append, hlin, hlout]
      have hver : (writeInt32 tx.version).length = 4 := rfl
      simp only [hver, length_writeVarInt, u32LE, List.length_cons,
        List.length_nil, List.length.eq_1]
      simp
      omega
  | true =>
      simp only [hw, Bool.not_false, Bool.true_and, Bool.and_false,
        Bool.false_and, Bool.false_eq_true, if_false, if_pos rfl, if_true]
      simp only [List.length_append, hlin, hlout, hlinF, hloutF]
      have hver : (writeInt32 tx.version).length = 4 := rfl
      simp only [hver, length_writeVarInt, u32LE, List.length_cons,
        List.length_nil, List.length.eq_1]
      simp
      omega

lemma Preserves.refl (st : Store) (bIn bOut : Nat) : Preserves st st bIn bOut :=
  ⟨fun _ _ => rfl, fun _ _ => rfl⟩

lemma Preserves.trans {st1 : Store} (st2 : Store) {st3 : Store} {bIn bOut : Nat}
    (h1 : Preserves st1 st2 bIn bOut) (h2 : Preserves st2 st3 bIn bOut) :
    Preserves st1 st3 bIn bOut :=
  ⟨fun k hk => (h2.1 k hk).trans (h1.1 k hk),
   fun k hk => (h2.2 k hk).trans (h1.2 k hk)⟩

lemma preserves_setInCell (st : Store) (r : Nat) (i : Input) (bIn bOut : Nat)
    (h : bIn ≤ r) : Preserves st (setInCell st r i) bIn bOut := by
  refine ⟨fun k hk => ?_, fun _ _ => rfl⟩
  exact List.getElem?_set_ne (by omega)

lemma preserves_append (st : Store) (newIns : List Input) (newOuts : List OutCell) :
    Preserves st
      { inCells := st.inCells ++ newIns, outCells := st.outCells ++ newOuts }
      st.inCells.length st.outCells.length := by
  constructor
  · intro k hk
    simp [List.getElem?_append_left hk]
  · intro k hk
    simp [List.getElem?_append_left hk]

lemma preserves_zeroSeqsAux (refs : List Nat) :
    ∀ (st : Store) (pos skip bIn bOut : Nat), (∀ r ∈ refs, bIn ≤ r) →
      Preserves st (zeroSeqsAux st refs pos skip) bIn bOut := by
  induction refs with
  | nil => intro st pos skip bIn bOut _; exact Preserves.refl st bIn bOut
  | cons r rs ih =>
      intro st pos skip bIn bOut h
      unfold zeroSeqsAux
      refine Preserves.trans (if pos = skip then st
        else setInCell st r { getInCell st r with sequence := 0 }) ?_ ?_
      · split
        · exact Preserves.refl st bIn bOut
        · exact preserves_setInCell st r _ bIn bOut (h r (by simp))
      · exact ih _ pos.succ skip bIn bOut (fun x hx => h x (by simp [hx]))

lemma preserves_blankScripts (refs : List Nat) :
    ∀ (st : Store) (bIn bOut : Nat), (∀ r ∈ refs, bIn ≤ r) →
      Preserves st (blankScripts st refs) bIn bOut := by
  induction refs with
  | nil => intro st bIn bOut _; exact Preserves.refl st bIn bOut
  | cons r rs ih =>
      intro st bIn bOut h
      unfold blankScripts
      simp only [List.foldl_cons]
      refine Preserves.trans (setInCell st r { getInCell st r with script := [] })
        (preserves_setInCell st r _ bIn bOut (h r (by simp))) ?_
      exact ih _ bIn bOut (fun x hx => h x (by simp [hx]))

lemma legacyFinish_snd (sha : List Nat → List Nat) (st : Store) (txTmp : HTx)
    (inIndex : Nat) (ourScript : List Nat) (hashType : Nat) :
    (legacyFinish sha st txTmp inIndex ourScript hashType).2 =
      if hashType &&& 128 ≠ 0 then
        setInCell st (txTmp.ins.getD inIndex 0)
          { getInCell st (txTmp.ins.getD inIndex 0) with script := ourScript }
      else
        setInCell (blankScripts st txTmp.ins) (txTmp.ins.getD inIndex 0)
          { getInCell (blankScripts st txTmp.ins) (txTmp.ins.getD inIndex 0) with
              script := ourScript } := by
  unfold legacyFinish
  by_cases hc : hashType &&& 128 ≠ 0
  · simp only [if_pos hc]
    split <;> rfl
  · simp only [if_neg hc]
    split <;> rfl

lemma preserves_legacyFinish (sha : List Nat → List Nat) (st : Store) (txTmp : HTx)
    (inIndex : Nat) (ourScript : List Nat) (hashType : Nat) (bIn bOut : Nat)
    (h : ∀ r ∈ txTmp.ins, bIn ≤ r) (hlen : inIndex < txTmp.ins.length) :
    Preserves st (legacyFinish sha st txTmp inIndex ourScript hashType).2 bIn bOut := by
  have hmem : txTmp.ins.getD inIndex 0 ∈ txTmp.ins := by
    have heq : txTmp.ins.getD inIndex 0 = txTmp.ins.get (Fin.mk inIndex hlen) := by
      simp [List.getD_eq_getElem?_getD, List.getElem?_eq_getElem hlen]
    rw [heq]
    exact List.get_mem txTmp.ins inIndex hlen
  rw [legacyFinish_snd]
  split
  · exact preserves_setInCell st _ _ bIn bOut (h _ hmem)
  · refine Preserves.trans (blankScripts st txTmp.ins)
      (preserves_blankScripts txTmp.ins st bIn bOut h) ?_
    exact preserves_setInCell _ _ _ bIn bOut (h _ hmem)

lemma preserves_appendOut (st : Store) (newOuts : List OutCell) (bIn bOut : Nat)
    (hOut : bOut ≤ st.outCells.length) :
    Preserves st { st with outCells := st.outCells ++ newOuts } bIn bOut := by
  refine ⟨fun _ _ => rfl, fun k hk => ?_⟩
  simp [List.getElem?_append_left (by omega : k < st.outCells.length)]

lemma mapM_option_congr {α β : Type} (l : List α) (f g : α → Option β)
    (h : ∀ x ∈ l, f x = g x) : l.mapM f = l.mapM g := by
  induction l with
  | nil => rfl
  | cons x xs ih =>
      simp only [List.mapM_cons, h x (by simp)]
      rw [ih fun y hy => h y (by simp [hy])]

lemma resolveTx_congr (st st' : Store) (tx : HTx) (bIn bOut : Nat)
    (hpres : Preserves st st' bIn bOut) (hIn : ∀ r ∈ tx.ins, r < bIn)
    (hOut : ∀ r ∈ tx.outs, r < bOut) :
    resolveTx st' tx = resolveTx st tx := by
  unfold resolveTx
  rw [mapM_option_congr tx.ins _ (fun r => st.inCells[r]?)
    (fun r hr => hpres.1 r (hIn r hr))]
  rw [mapM_option_congr tx.outs _ (fun r => st.outCells[r]?)
    (fun r hr => hpres.2 r (hOut r hr))]

lemma clone_fst_ins (st : Store) (tx : HTx) :
    (clone st tx).1.ins = (List.range tx.ins.length).map (st.inCells.length + ·) := rfl

lemma clone_refs_ge (st : Store) (tx : HTx) :
    ∀ r ∈ (clone st tx).1.ins, st.inCells.length ≤ r := by
  rw [clone_fst_ins]
  intro r hr
  simp only [List.mem_map, List.mem_range] at hr
  obtain ⟨j, _, rfl⟩ := hr
  omega

lemma clone_fst_ins_length (st : Store) (tx : HTx) :
    (clone st tx).1.ins.length = tx.ins.length := by
  rw [clone_fst_ins]
  simp

lemma clone_snd_inCells_length (st : Store) (tx : HTx) :
    st.inCells.length ≤ (clone st tx).2.inCells.length := by
  simp [clone]

lemma clone_snd_outCells_length (st : Store) (tx : HTx) :
    st.outCells.length ≤ (clone st tx).2.outCells.length := by
  simp [clone]

lemma preserves_clone (st : Store) (tx : HTx) :
    Preserves st (clone st tx).2 st.inCells.length st.outCells.length :=
  preserves_append st _ _

/-- `hashForSignature` never writes a heap object that existed before the
call: every pre-existing address still holds its old object. -/
lemma hashForSignature_preserves (sha : List Nat → List Nat) (st : Store)
    (tx : HTx) (inIndex : Nat) (prevOutScript : List Nat) (hashType : Nat) :
    Preserves st (hashForSignature sha st tx inIndex prevOutScript hashType).2
      st.inCells.length st.outCells.length := by
  unfold hashForSignature
  by_cases hg : tx.ins.length ≤ inIndex
  · rw [if_pos hg]
    exact Preserves.refl st _ _
  · rw [if_neg hg]
    simp only
    have hrefs := clone_refs_ge st tx
    have hlen : inIndex < (clone st tx).1.ins.length := by
      rw [clone_fst_ins_length]
      omega
    by_cases h2 : hashType &&& 31 = 2
    · rw [if_pos h2]
      refine Preserves.trans _ (preserves_clone st tx) ?_
      refine Preserves.trans _
        (preserves_zeroSeqsAux (clone st tx).1.ins (clone st tx).2 0 inIndex _ _ hrefs) ?_
      exact preserves_legacyFinish sha _ _ inIndex _ hashType _ _ hrefs hlen
    · rw [if_neg h2]
      by_cases h3 : hashType &&& 31 = 3
      · rw [if_pos h3]
        by_cases h4 : tx.outs.length ≤ inIndex
        · rw [if_pos h4]
          exact preserves_clone st tx
        · rw [if_neg h4]
          refine Preserves.trans _ (preserves_clone st tx) ?_
          refine Preserves.trans _
            (preserves_appendOut (clone st tx).2 (List.replicate inIndex OutCell.blank)
              _ _ (clone_snd_outCells_length st tx)) ?_
          refine Preserves.trans _
            (preserves_zeroSeqsAux (clone st tx).1.ins _ 0 inIndex _ _ hrefs) ?_
          exact preserves_legacyFinish sha _ _ inIndex _ hashType _ _ hrefs hlen
      · rw [if_neg h3]
        refine Preserves.trans _ (preserves_clone st tx) ?_
        exact preserves_legacyFinish sha _ _ inIndex _ hashType _ _ hrefs hlen

lemma hashForSignature_sentinel_ins (sha : List Nat → List Nat) (st : Store)
    (tx : HTx) (inIndex : Nat) (scr : List Nat) (ht : Nat)
    (h : tx.ins.length ≤ inIndex) :
    hashForSignature sha st tx inIndex scr ht = (some ONE32, st) := by
  unfold hashForSignature
  rw [if_pos h]

lemma hashForSignature_sentinel_single (sha : List Nat → List Nat) (st : Store)
    (tx : HTx) (inIndex : Nat) (scr : List Nat) (ht : Nat)
    (h3 : ht &&& 31 = 3) (h : tx.outs.length ≤ inIndex) :
    (hashForSignature sha st tx inIndex scr ht).1 = some ONE32 := by
  unfold hashForSignature
  by_cases hg : tx.ins.length ≤ inIndex
  · rw [if_pos hg]
  · rw [if_neg hg]
    rw [if_neg (by omega), if_pos h3, if_pos h]

/-! ### Claims -/

/-- C1: for every well-formed transaction `t`, deserializing the bytes
produced by serializing `t` with witnesses allowed yields a transaction
structurally equal to `t` across all fields:
`fromBuffer (toBuffer t) = some t`. -/
theorem c1_serialization_roundtrip (tx : Transaction) (h : wfTx tx = true) :
    fromBuffer (toBuffer tx) false = some tx :=
  roundtrip tx h

theorem c1_serialization_roundtrip_witness :
    wfTx exTx = true ∧ fromBuffer (toBuffer exTx) false = some exTx :=
  ⟨by decide, c1_serialization_roundtrip exTx (by decide)⟩

/-- C2: the public `byteLength` pipes its argument through
`_ALLOW_WITNESS || true`, which is always `true`; on a witness-bearing
transaction `byteLength(t, false)` therefore returns the witness
serialization size while `to_bytes(t, allow_witness = false)` emits the
strictly smaller base size, refuting the claimed size consistency for
`allow_witness = false`. -/
theorem c2_byteLength_ignores_argument :
    byteLength exTx (some false) = byteLengthFull exTx true false ∧
    (toBufferFull exTx false false false).length = byteLengthFull exTx false false ∧
    byteLengthFull exTx false false ≠ byteLengthFull exTx true false :=
  ⟨rfl, by decide, by decide⟩

/-- C4 counterexample: with one input, a `prevOutScripts` array of matching
length and an empty `prevoutAssetsValues` array, `hashForWitnessV1`
completes successfully — no `MismatchedPrevouts` error is raised although a
companion array has the wrong length. -/
theorem c4_counterexample :
    ([] : List (List Nat × List Nat)).length ≠ exTx.ins.length ∧
    (hashForWitnessV1 constSha exTx 0 [[]] [] 1 ZERO32 none none).isOk = true := by
  constructor
  · decide
  · rfl

/-- C4 (amended): `hashForWitnessV1` raises the `MismatchedPrevouts` error
exactly when `prevOutScripts` has a length different from the input count;
the length of `prevoutAssetsValues` is never checked. -/
theorem c4_mismatched_prevouts_iff (sha : List Nat → List Nat)
    (tx : Transaction) (inIndex : Nat) (prevOutScripts : List (List Nat))
    (prevoutAssetsValues : List (List Nat × List Nat)) (hashType : Nat)
    (genesisBlockHash : List Nat) (leafHash annex : Option (List Nat)) :
    hashForWitnessV1 sha tx inIndex prevOutScripts prevoutAssetsValues hashType
        genesisBlockHash leafHash annex = Except.error mismatchedPrevoutsMsg ↔
      prevOutScripts.length ≠ tx.ins.length := by
  unfold hashForWitnessV1
  by_cases hM : prevOutScripts.length ≠ tx.ins.length
  · rw [if_pos hM]
    simp [hM]
  · rw [if_neg hM]
    constructor
    · intro hcontra
      cases hbody : hashForWitnessV1Body sha tx inIndex prevOutScripts
          prevoutAssetsValues hashType genesisBlockHash leafHash annex with
      | none =>
          rw [hbody] at hcontra
          simp only [Except.error.injEq] at hcontra
          exact absurd hcontra (by decide)
      | some d =>
          rw [hbody] at hcontra
          cases hcontra
    · intro hcontra
      exact absurd hcontra hM

/-- C6: `hashForSignature` returns the constant `ONE32` (31 zero bytes then
0x01) whenever `in_index` is at least the number of inputs, and whenever
the output mode is `SIGHASH_SINGLE` (`hash_type & 0x1F = 3`) and `in_index`
is at least the number of outputs; both sentinels are ordinary returns,
not errors. -/
theorem c6_legacy_sighash_sentinels (sha : List Nat → List Nat) (st : Store)
    (htx : HTx) (inIndex : Nat) (scr : List Nat) (hashType : Nat) :
    (htx.ins.length ≤ inIndex →
      hashForSignature sha st htx inIndex scr hashType = (some ONE32, st)) ∧
    (hashType &&& 31 = 3 → htx.outs.length ≤ inIndex →
      (hashForSignature sha st htx inIndex scr hashType).1 = some ONE32) :=
  ⟨fun h => hashForSignature_sentinel_ins sha st htx inIndex scr hashType h,
   fun h3 h => hashForSignature_sentinel_single sha st htx inIndex scr hashType h3 h⟩

theorem c6_legacy_sighash_sentinels_witness :
    hashForSignature idSha exStore exHTx 5 [] 1 = (some ONE32, exStore) ∧
    (hashForSignature idSha exStore6 exHTx6 1 [] 3).1 = some ONE32 :=
  ⟨(c6_legacy_sighash_sentinels idSha exStore exHTx 5 [] 1).1 (by decide),
   (c6_legacy_sighash_sentinels idSha exStore6 exHTx6 1 [] 3).2 (by decide) (by decide)⟩

/-- C7: for every coinbase transaction (exactly one input whose previous
txid is 32 zero bytes), `getHash` with `forWitness = true` returns 32 zero
bytes, regardless of the transaction's other fields and of the hash
function. -/
theorem c7_coinbase_wtxid (sha : List Nat → List Nat) (tx : Transaction)
    (i : Input) (hins : tx.ins = [i]) (hhash : i.hash = List.replicate 32 0) :
    getHash sha tx true = some (List.replicate 32 0) := by
  unfold getHash isCoinbase isCoinbaseHash
  rw [if_pos rfl]
  have hlen : tx.ins.length = 1 := by rw [hins]; rfl
  rw [dif_pos hlen]
  have hne : tx.ins ≠ [] := by intro hn; simp [hn] at hlen
  have hhead : tx.ins.head hne = i := by
    have h9 : tx.ins.head? = some i := by rw [hins]; rfl
    rw [List.head?_eq_head hne] at h9
    exact Option.some.inj h9
  rw [hhead, hhash]
  simp

theorem c7_coinbase_wtxid_witness :
    getHash idSha exCb true = some (List.replicate 32 0) :=
  c7_coinbase_wtxid idSha exCb { exIn with hash := List.replicate 32 0 } rfl rfl

/-- C8 counterexample: the input with logical index `0x3FFFFFFF` and both
flags set packs to the sentinel `0xFFFFFFFF` on the wire; deserializing
yields index `0xFFFFFFFF` with both flags lost, so the claimed round trip
fails inside the claimed domain (`index < 2^30`, any flag combination). -/
theorem c8_counterexample :
    exIn8.index = 1073741823 ∧ exIn8.index < 1073741824 ∧
    exIn8.isPegin = true ∧ exIn8.issuance.isSome = true ∧
    (readInput (writeInput exIn8 ++ [])).map
        (fun p => (p.1.index, p.1.isPegin, p.1.issuance.isSome)) =
      some (4294967295, false, false) := by
  refine ⟨rfl, by decide, rfl, rfl, ?_⟩
  rfl

/-- C8 (amended): serializing then deserializing an input preserves both
flags and the logical index for every logical index below `2^30` except
the corner `0x3FFFFFFF` with both flags set (whose packed form collides
with the sentinel); the sentinel `0xFFFFFFFF` with no flags round-trips
unchanged with no flag derivation, no masking and no issuance read. -/
theorem c8_flag_bit_roundtrip (i : Input) (rest : List Nat)
    (h : wfInput i = true) :
    readInput (writeInput i ++ rest) = some (stripIn i, rest) ∧
    (stripIn i).index = i.index ∧ (stripIn i).isPegin = i.isPegin ∧
    (stripIn i).issuance = i.issuance :=
  ⟨readInput_writeInput i rest h, rfl, rfl, rfl⟩

theorem c8_flag_bit_roundtrip_witness :
    wfInput exIn8b = true ∧
    (readInput (writeInput exIn8b ++ []) = some (stripIn exIn8b, []) ∧
     (stripIn exIn8b).index = exIn8b.index ∧
     (stripIn exIn8b).isPegin = exIn8b.isPegin ∧
     (stripIn exIn8b).issuance = exIn8b.issuance) :=
  ⟨by decide, c8_flag_bit_roundtrip exIn8b [] (by decide)⟩

/-- C9: `hashForSignature` leaves the original transaction entirely
unchanged for every argument combination: every heap object the original
transaction references still resolves to the same value after the call —
all mutations hit only the clone's freshly allocated objects. -/
theorem c9_hashForSignature_frame (sha : List Nat → List Nat) (st : Store)
    (htx : HTx) (inIndex : Nat) (scr : List Nat) (hashType : Nat)
    (hIn : ∀ r ∈ htx.ins, r < st.inCells.length)
    (hOut : ∀ r ∈ htx.outs, r < st.outCells.length) :
    resolveTx (hashForSignature sha st htx inIndex scr hashType).2 htx =
      resolveTx st htx :=
  resolveTx_congr st _ htx st.inCells.length st.outCells.length
    (hashForSignature_preserves sha st htx inIndex scr hashType) hIn hOut

theorem c9_hashForSignature_frame_witness :
    resolveTx (hashForSignature idSha exStore exHTx 0 [] 2).2 exHTx =
      resolveTx exStore exHTx :=
  c9_hashForSignature_frame idSha exStore exHTx 0 [] 2 (by decide) (by decide)

/-- C10: `addInput` with an explicit sequence argument 0 stores
`DEFAULT_SEQUENCE` (`0xFFFFFFFF`), because the default is applied by the
falsy test `sequence || DEFAULT_SEQUENCE`; any non-zero 32-bit sequence is
stored as supplied. -/
theorem c10_addInput_zero_sequence (tx : Transaction) (hash : List Nat)
    (index : Nat) (scr : Option (List Nat)) (iss : Option Issuance)
    (hh : hash.length = 32) (hidx : index < 4294967296)
    (hflag : ¬(index ≠ MINUS_1 ∧ index &&& OUTPOINT_ISSUANCE_FLAG ≠ 0 ∧ iss.isNone))
    (hval : ∀ i0 ∈ iss, validateIssuance i0 = true) :
    addInput tx hash index (some 0) scr iss =
      Except.ok ({ tx with
        ins := tx.ins ++ [mkAddedInput hash index scr iss DEFAULT_SEQUENCE] },
        tx.ins.length) ∧
    ∀ s, s ≠ 0 → s < 4294967296 →
      addInput tx hash index (some s) scr iss =
        Except.ok ({ tx with
          ins := tx.ins ++ [mkAddedInput hash index scr iss s] },
          tx.ins.length) := by
  constructor
  · unfold addInput
    rw [if_neg (by
      push_neg
      exact ⟨hh, hidx, fun s2 hs2 => by
        simp only [Option.mem_def, Option.some.injEq] at hs2
        omega⟩)]
    rw [if_neg hflag]
    rw [if_neg (by
      push_neg
      exact fun _ _ => hval)]
    rfl
  · intro s hs hs32
    unfold addInput
    rw [if_neg (by
      push_neg
      exact ⟨hh, hidx, fun s2 hs2 => by
        simp only [Option.mem_def, Option.some.injEq] at hs2
        omega⟩)]
    rw [if_neg hflag]
    rw [if_neg (by
      push_neg
      exact fun _ _ => hval)]
    simp only [mkAddedInput]
    rw [if_neg hs]

theorem c10_addInput_zero_sequence_witness :
    (addInput exTx (List.replicate 32 1) 7 (some 0) none none =
      Except.ok ({ exTx with
        ins := exTx.ins ++ [mkAddedInput (List.replicate 32 1) 7 none none
          DEFAULT_SEQUENCE] }, exTx.ins.length)) ∧
    (9 : Nat) ≠ 0 ∧
    addInput exTx (List.replicate 32 1) 7 (some 9) none none =
      Except.ok ({ exTx with
        ins := exTx.ins ++ [mkAddedInput (List.replicate 32 1) 7 none none 9] },
        exTx.ins.length) := by
  have h := c10_addInput_zero_sequence exTx (List.replicate 32 1) 7 none none
    (by decide) (by decide) (by decide) (by intro i0 hi0; cases hi0)
  exact ⟨h.1, by decide, h.2 9 (by decide) (by decide)⟩

/-- C3 counterexample: on the legacy-sighash serialization path the call is
`__toBuffer(buffer, 0, false, true, true)` — witnesses are disallowed — so
for a witness-bearing transaction the confidential value is emitted
verbatim and no 0x00/zero-u64 substitution happens, refuting "this
substitution applies on the legacy-sighash serialization path" (with the
identity hash stand-in, the returned digest is the preimage itself). -/
theorem c3_counterexample :
    hasWitnesses exTx = true ∧
    (hashForSignature idSha exStore exHTx 0 [] 1).1 =
      some (toBufferFull exTx false true true ++ u32LE 1) ∧
    toBufferFull exTx false true true ≠
      writeInt32 exTx.version ++ writeVarInt exTx.ins.length ++
        (exTx.ins.map writeInput).flatten ++ writeVarInt exTx.outs.length ++
        (exTx.outs.map (fun o => o.asset ++ [0] ++ o.nonce ++
          List.replicate 8 0 ++ writeVarSlice o.script)).flatten ++
        u32LE exTx.locktime := by
  refine ⟨rfl, ?_, by decide⟩
  rfl

/-- C3 (amended): the confidential-value substitution (a single 0x00 byte
plus an appended little-endian u64 zero before the script) applies exactly
when `forSignature` AND `allowWitness` AND `hasWitnesses()` hold; with
`allowWitness = false` — which is what the legacy sighash passes — the
value is serialized verbatim. -/
theorem c3_substitution_needs_allow_witness (tx : Transaction) (fz : Bool)
    (h : hasWitnesses tx = true) :
    toBufferFull tx true fz true =
      writeInt32 tx.version ++ writeVarInt tx.ins.length ++
        (tx.ins.map writeInput).flatten ++ writeVarInt tx.outs.length ++
        (tx.outs.map (fun o => o.asset ++ [0] ++ o.nonce ++
          List.replicate 8 0 ++ writeVarSlice o.script)).flatten ++
        u32LE tx.locktime ∧
    toBufferFull tx false fz true =
      writeInt32 tx.version ++ writeVarInt tx.ins.length ++
        (tx.ins.map writeInput).flatten ++ writeVarInt tx.outs.length ++
        (tx.outs.map (fun o => o.asset ++ o.value ++ o.nonce ++
          writeVarSlice o.script)).flatten ++ u32LE tx.locktime := by
  have hsub : ∀ o : Output, writeOutput true o =
      o.asset ++ [0] ++ o.nonce ++ List.replicate 8 0 ++ writeVarSlice o.script := by
    intro o
    simp [writeOutput, u64LE, u32LE, List.replicate]
  have hverb : ∀ o : Output, writeOutput false o =
      o.asset ++ o.value ++ o.nonce ++ writeVarSlice o.script := by
    intro o
    simp [writeOutput]
  constructor
  · simp only [toBufferFull, h, Bool.and_true, Bool.true_and, Bool.and_self,
      Bool.not_true, Bool.false_and, if_true, eq_self_iff_true, List.append_nil]
    rw [List.map_congr_left (fun o (_ : o ∈ tx.outs) => hsub o)]
    all_goals simp [List.append_assoc]
  · simp only [toBufferFull, h, Bool.and_true, Bool.true_and, Bool.false_and,
      Bool.and_false, Bool.not_true, Bool.false_eq_true, if_false, if_true,
      eq_self_iff_true, List.append_nil]
    rw [List.map_congr_left (fun o (_ : o ∈ tx.outs) => hverb o)]

theorem c3_substitution_needs_allow_witness_witness :
    hasWitnesses exTx = true ∧
    toBufferFull exTx true true true =
      writeInt32 exTx.version ++ writeVarInt exTx.ins.length ++
        (exTx.ins.map writeInput).flatten ++ writeVarInt exTx.outs.length ++
        (exTx.outs.map (fun o => o.asset ++ [0] ++ o.nonce ++
          List.replicate 8 0 ++ writeVarSlice o.script)).flatten ++
        u32LE exTx.locktime :=
  ⟨by decide, (c3_substitution_needs_allow_witness exTx true (by decide)).1⟩

/-- C5 counterexample: with witnesses present, `allow_witness = true` and
`force_zero_flag = true` the flag byte on the wire is 0 but the
witness/proof suffix is still emitted — the serialization strictly extends
the suffix-free form, refuting "the witness/proof suffix is then also
omitted". -/
theorem c5_counterexample :
    hasWitnesses exTx = true ∧
    (toBufferFull exTx true true false)[4]? = some 0 ∧
    (toBufferFull exTx true true false).take
        (toBufferFull exTx false true false).length =
      toBufferFull exTx false true false ∧
    toBufferFull exTx true true false ≠ toBufferFull exTx false true false := by
  exact ⟨rfl, rfl, rfl, by decide⟩

/-- C5 (amended): with witnesses present, serializing with
`allow_witness = true` and `force_zero_flag = true` emits a zero flag byte
but keeps the entire witness/proof suffix; the suffix is omitted only when
`allow_witness = false` (the serialization the txid path uses). -/
theorem c5_force_zero_flag_keeps_suffix (tx : Transaction)
    (h : hasWitnesses tx = true) :
    toBufferFull tx true true false =
      writeInt32 tx.version ++ [0] ++ writeVarInt tx.ins.length ++
        (tx.ins.map writeInput).flatten ++ writeVarInt tx.outs.length ++
        (tx.outs.map (writeOutput false)).flatten ++ u32LE tx.locktime ++
        ((tx.ins.map writeConfInFieldsOf).flatten ++
          (tx.outs.map writeConfOutFieldsOf).flatten) ∧
    toBufferFull tx false true false =
      writeInt32 tx.version ++ [0] ++ writeVarInt tx.ins.length ++
        (tx.ins.map writeInput).flatten ++ writeVarInt tx.outs.length ++
        (tx.outs.map (writeOutput false)).flatten ++ u32LE tx.locktime := by
  constructor
  · unfold toBufferFull
    simp [h, List.append_assoc]
  · unfold toBufferFull
    simp [h, List.append_assoc]

theorem c5_force_zero_flag_keeps_suffix_witness :
    hasWitnesses exTx = true ∧
    toBufferFull exTx true true false =
      writeInt32 exTx.version ++ [0] ++ writeVarInt exTx.ins.length ++
        (exTx.ins.map writeInput).flatten ++ writeVarInt exTx.outs.length ++
        (exTx.outs.map (writeOutput false)).flatten ++ u32LE exTx.locktime ++
        ((exTx.ins.map writeConfInFieldsOf).flatten ++
          (exTx.outs.map writeConfOutFieldsOf).flatten) :=
  ⟨by decide, (c5_force_zero_flag_keeps_suffix exTx (by decide)).1⟩
